import Mathlib

/-!
# Verification of the manifest / referrer-graph core of the registry

This file gives a shallow embedding, in Lean 4, of the parts of the
registry source that the specification's claims are about:

* the `Vacuum` deletion helpers (`registry/storage/vacuum.go`),
* the ORAS referrers pagination handler (`getReferrers`),
* the HTTP referrers handlers' nil-slice replacement,
* the referrers listing service (`registry/extension/oras/artifactservice.go`,
  both variants),
* the ORAS artifact manifest PUT path
  (`registry/storage/artifactmanifesthandler.go`),
* the polymorphic manifest store (`manifestStore.Get/Put`),
* the mark-and-sweep garbage collector
  (`MarkAndSweep`, `artifactMarkIngestor`, `artifactSweepIngestor` in
  `registry/storage/ocimanifesthandler.go`).

Go `map`/`slice` state is modelled with association lists and `List`,
Go errors with `Except`/`Option`, and the recursive referrer walks with
explicit fuel (the Go code recurses over the on-disk referrer graph and
terminates only because that graph is acyclic; running out of fuel is
modelled as an error, so theorems about completed runs are unaffected).
-/

/-- An algorithm-tagged content digest, e.g. `sha256:ab12…`.  Mirrors
`digest.Digest` from `opencontainers/go-digest`, split into its two
components the way the Go code uses them (`dgst.Algorithm()`, `dgst.Hex()`). -/
structure Dgst where
  alg : String
  hex : String
deriving DecidableEq, Repr

/-- Canonical string form `<alg>:<hex>` (Go `dgst.String()`). -/
def Dgst.str (d : Dgst) : String := d.alg ++ ":" ++ d.hex

instance {ε α : Type} [DecidableEq ε] [DecidableEq α] :
    DecidableEq (Except ε α) := fun a b =>
  match a, b with
  | .error e, .error e' =>
    if h : e = e' then isTrue (by rw [h]) else isFalse (by simp [h])
  | .error _, .ok _ => isFalse (by simp)
  | .ok _, .error _ => isFalse (by simp)
  | .ok x, .ok y =>
    if h : x = y then isTrue (by rw [h]) else isFalse (by simp [h])

namespace Vacuum

/-- A storage-driver error: either the driver reports that the path does not
exist (`driver.PathNotFoundError`) or some other ("hard") failure. -/
inductive DriverErr where
  | pathNotFound
  | other (msg : String)
deriving DecidableEq, Repr

/-- Outcome of a single storage-driver call: `none` is success. -/
abbrev DriverRes := Option DriverErr

/-- The storage driver as the `Vacuum` sees it: an outcome for every `Stat`
and every `Delete` call, keyed by path.  `vacuum.go` only issues these two
kinds of calls. -/
structure StorageDriver where
  stat : String → DriverRes
  delete : String → DriverRes

/-- Path of a historical tag→revision link
(`manifestTagIndexEntryPathSpec`): layout from §6 of the spec,
`repositories/<name>/_manifests/tags/<tag>/index/<alg>/<hex>`. -/
def manifestTagIndexEntryPath (name : String) (tag : String) (d : Dgst) : String :=
  "/docker/registry/v2/repositories/" ++ name ++ "/_manifests/tags/" ++ tag
    ++ "/index/" ++ d.alg ++ "/" ++ d.hex

/-- Path of a manifest revision directory (`manifestRevisionPathSpec`). -/
def manifestRevisionPath (name : String) (d : Dgst) : String :=
  "/docker/registry/v2/repositories/" ++ name ++ "/_manifests/revisions/"
    ++ d.alg ++ "/" ++ d.hex

/-- Referrers root of a repository (`referrersRootPathSpec`). -/
def referrersRootPath (name : String) : String :=
  "/docker/registry/v2/repositories/" ++ name ++ "/_refs/subjects"

/-- The referrer-root folder of one manifest:
`path.Join(referrerRootPath, dgst.Algorithm().String(), dgst.Hex())`. -/
def manifestRefFolderPath (name : String) (d : Dgst) : String :=
  referrersRootPath name ++ "/" ++ d.alg ++ "/" ++ d.hex

/-- The tag loop of `Vacuum.RemoveManifest`: for each tag, `Stat` the tag
index entry; `PathNotFoundError` continues to the next tag, any other `Stat`
error is returned; otherwise `Delete` it and return any error. -/
def removeTagRefs (v : StorageDriver) (name : String) (d : Dgst) :
    List String → Except DriverErr Unit
  | [] => .ok ()
  | tag :: rest =>
    let tagsPath := manifestTagIndexEntryPath name tag d
    match v.stat tagsPath with
    | some .pathNotFound => removeTagRefs v name d rest
    | some e => .error e
    | none =>
      match v.delete tagsPath with
      | some e => .error e
      | none => removeTagRefs v name d rest

/-- `Vacuum.RemoveManifest(name, dgst, tags)` from `vacuum.go`: delete the
tag index entries, then the revision directory, then the referrer-root
folder.  The source discards the return value of the referrer-root
`Delete` (`v.driver.Delete(v.ctx, fullArtifactManifestPath)` is not
assigned to `err`), and the `if err != nil` that follows inspects the
(nil) error of the preceding `pathFor` call, so the function returns
success regardless of how that final `Delete` fares. -/
def RemoveManifest (v : StorageDriver) (name : String) (d : Dgst)
    (tags : List String) : Except DriverErr Unit := do
  removeTagRefs v name d tags
  match v.delete (manifestRevisionPath name d) with
  | some e => .error e
  | none =>
    let _ := v.delete (manifestRefFolderPath name d)
    .ok ()

/-- A driver on which every call succeeds except the `Delete` of the
referrer-root folder of `sha256:aaa` in `library/app`, which fails with a
hard (non-path-not-found) error. -/
def hardRefRootDriver : StorageDriver where
  stat := fun _ => none
  delete := fun p =>
    if p = manifestRefFolderPath "library/app" ⟨"sha256", "aaa"⟩ then
      some (.other "disk failure")
    else none

end Vacuum

namespace Page

/-- Result of parsing the `nextToken` query parameter, abstracting the raw
string: `absent` when the parameter is empty, `badBase64` when
`base64.RawURLEncoding.DecodeString` fails, and otherwise the
comma-separated parts, each part being `some d` when `digest.Parse`
succeeds on it and `none` when it fails. -/
inductive Token where
  | absent
  | badBase64
  | parts (l : List (Option Dgst))
deriving DecidableEq, Repr

/-- `maxPageSize` from the handler. -/
def maxPageSize : Int := 50

/-- `minPageSize` from the handler. -/
def minPageSize : Int := 3

/-- Page-size normalisation at the top of `getReferrers`: an absent or
unparsable `n`, or one outside `[minPageSize, maxPageSize]`, is reset to
`maxPageSize`.  `nRaw = none` models `strconv.Atoi` failing. -/
def normalizePageSize (nRaw : Option Int) : Int :=
  match nRaw with
  | none => maxPageSize
  | some k => if k < minPageSize ∨ k > maxPageSize then maxPageSize else k

/-- The token digests, when the token is syntactically well formed. -/
def tokenDigests : Token → Option (List Dgst)
  | .absent => some []
  | .badBase64 => none
  | .parts l => l.foldr (fun p acc =>
      match p, acc with
      | some d, some ds => some (d :: ds)
      | _, _ => none) (some [])

/-- One step of the `startIndex` scan: a referrer at index `i` whose
digest is in the token map raises the start index to `i + 1` when that is
larger. -/
def siStep (referrers : List Dgst) (toks : List Dgst) (s : Nat) (i : Nat) : Nat :=
  match referrers.get? i with
  | some r => if r ∈ toks ∧ i + 1 > s then i + 1 else s
  | none => s

/-- `startIndex` computation of `getReferrers`: the successor of the
largest index whose digest is in the token map, 0 when there is none. -/
def startIndex (referrers : List Dgst) (toks : List Dgst) : Nat :=
  (List.range referrers.length).foldl (siStep referrers toks) 0

/-- Outcome of the pagination section of `getReferrers`: a
*malformed-next-token* error, a Go runtime panic (slice bounds out of
range), or a page together with the digests put into the `Link` header's
next token (`none` when no `Link` header is emitted). -/
inductive PageOutcome where
  | malformed
  | panicked
  | page (body : List Dgst) (nextTok : Option (List Dgst))
deriving DecidableEq, Repr

/-- The pagination logic of `getReferrers` (`part_010` lines 40–117),
applied to the referrers list returned by the service.  Mirrors the
source: pagination only happens when `len(referrers) > nPage`; the page
starts after the largest-index match of any token digest (0 when none
matches); when the match is the final element the slice is replaced by an
empty one and the subsequent re-slice with the stale `startIndex` panics;
when more than one page remains the last `minPageSize` digests of the page
(most recent last-index first) are emitted as the next token. -/
def getReferrersPage (referrers : List Dgst) (nRaw : Option Int)
    (tok : Token) : PageOutcome :=
  let nPage := (normalizePageSize nRaw).toNat
  match tokenDigests tok with
  | none => .malformed
  | some toks =>
    if referrers.length > nPage then
      let s := if toks.isEmpty then 0 else startIndex referrers toks
      let referrers1 := if s = referrers.length then [] else referrers
      if (referrers1.length : Int) - (s : Int) ≤ (nPage : Int) then
        if s ≤ referrers1.length then
          .page (referrers1.drop s) none
        else
          .panicked
      else
        let body := (referrers1.drop s).take nPage
        let nextDgsts := (List.range minPageSize.toNat).foldl
          (fun acc j =>
            match body.get? (nPage - 1 - j) with
            | some d => acc ++ [d]
            | none => acc) []
        .page body (some nextDgsts)
    else
      .page referrers none

end Page

namespace HttpRef

/-- A Go slice: `none` is a nil slice, `some l` a non-nil slice holding
`l`.  `encoding/json` marshals a nil slice as `null` and a non-nil empty
slice as `[]`; the distinction is exactly what claim C10 is about. -/
abbrev GoSlice (α : Type) := Option (List α)

/-- The JSON value a referrers list marshals to: `null` for a nil slice,
an array (of the slice's length) otherwise. -/
inductive JsonVal where
  | null
  | arr (n : Nat)
deriving DecidableEq, Repr

/-- Go `encoding/json` on a slice-valued struct field. -/
def marshalSlice {α : Type} : GoSlice α → JsonVal
  | none => .null
  | some l => .arr l.length

/-- Outcome of the referrer-link walk underlying `Referrers`:
`driver.PathNotFoundError` (no referrer directory for the subject), some
other error, or success with the list of descriptors accumulated in
enumeration order. -/
inductive WalkOutcome where
  | pathNotFound
  | failed
  | ok (found : List Dgst)
deriving DecidableEq, Repr

/-- The result of `referrersHandler.Referrers` as seen by the HTTP
handler: `PathNotFoundError` from the walk is translated to `(nil, nil)`;
a successful walk that matched nothing also returns a nil slice (the Go
code appends to `var referrersSorted []…`, which stays nil when nothing
is appended); other errors propagate. -/
def referrersResult : WalkOutcome → Except Unit (GoSlice Dgst)
  | .pathNotFound => .ok none
  | .failed => .error ()
  | .ok [] => .ok none
  | .ok (d :: l) => .ok (some (d :: l))

/-- The nil-replacement of the handlers: `if referrers == nil {
referrers = []orasartifacts.Descriptor{} }`. -/
def nilReplace : GoSlice Dgst → List Dgst
  | none => []
  | some l => l

/-- Encoding of the pagination outcome: the error and panic paths write
no JSON body; a page is encoded with its (non-nil) descriptor slice. -/
def pageBody : Page.PageOutcome → Option JsonVal
  | .malformed => none
  | .panicked => none
  | .page body _ => some (marshalSlice (some body))

/-- The body produced by the ORAS `getReferrers` HTTP handler
(`part_010`): on service error no body is written; otherwise a nil list is
replaced by a non-nil empty one, pagination runs on the (now non-nil)
slice, and the `referrers` field of the response is the marshalled slice. -/
def getReferrersBody (w : WalkOutcome) (nRaw : Option Int)
    (tok : Page.Token) : Option JsonVal :=
  match referrersResult w with
  | .error _ => none
  | .ok r => pageBody (Page.getReferrersPage (nilReplace r) nRaw tok)

/-- The body of the OCI 1.1 `GetReferrers` handler
(`registry/handlers/referrers.go`): the `Manifests` field of the returned
image index is the referrers list after nil-replacement.  That handler
does not paginate. -/
def getReferrersIndexManifests (w : WalkOutcome) : Option JsonVal :=
  match referrersResult w with
  | .error _ => none
  | .ok r => some (marshalSlice (some (nilReplace r)))

end HttpRef

namespace RefSvc

/-- What the `Referrers` service observes about one enumerated referrer
link, after `enumerateReferrerLinks` has already read the link file and
skipped digests the blob statter does not know.  `isArtifact` models the
`man.(*DeserializedManifest)` type assertion (whether `manifests.Get`
returned an ORAS artifact manifest); `created` abstracts the
`io.cncf.oras.artifact.created` annotation string: `none` when the
annotation is absent, `some none` when present but not RFC3339,
`some (some t)` when it parses to the instant `t` (instants are
represented by integers, ordered as times are; the Go zero time is `0` and
parseable annotations are modelled as positive). -/
structure RefRecord where
  dgst : Dgst
  isArtifact : Bool
  artifactType : String
  created : Option (Option Int)
  size : Int
  mediaType : String
deriving DecidableEq, Repr

/-- The `artifactv1.Descriptor` built for one included referrer. -/
structure ArtDesc where
  mediaType : String
  size : Int
  dgst : Dgst
  artifactType : String
deriving DecidableEq, Repr

/-- Descriptor construction (media type from `Payload()`, size and digest
from the blob stat, artifact type from the manifest). -/
def descOf (r : RefRecord) : ArtDesc :=
  ⟨r.mediaType, r.size, r.dgst, r.artifactType⟩

/-- The accumulator of the first `Referrers` variant: the unannotated
descriptors (`referrersUnsorted`) and the annotated ones paired with their
parsed creation time (`referrersWrappers`). -/
structure V1Acc where
  unsorted : List ArtDesc
  wrappers : List (Int × ArtDesc)
deriving DecidableEq, Repr

/-- The inclusion test of the first variant: skip non-artifact manifests,
then `artifactType == "" || extractedArtifactType == artifactType`. -/
def includeV1 (filter : String) (r : RefRecord) : Bool :=
  r.isArtifact && (filter == "" || r.artifactType == filter)

/-- The ingest closure of the first `Referrers` variant, applied to the
enumerated records in order.  An annotated referrer whose annotation fails
to parse as RFC3339 aborts the whole listing with an error, exactly as
`time.Parse` failure does in the source. -/
def ingestV1 (filter : String) (acc : V1Acc) :
    List RefRecord → Except Unit V1Acc
  | [] => .ok acc
  | r :: rest =>
    if includeV1 filter r then
      match r.created with
      | none => ingestV1 filter ⟨acc.unsorted ++ [descOf r], acc.wrappers⟩ rest
      | some none => .error ()
      | some (some t) =>
        ingestV1 filter ⟨acc.unsorted, acc.wrappers ++ [(t, descOf r)]⟩ rest
    else ingestV1 filter acc rest

/-- One step of insertion into a list sorted by decreasing first
component. -/
def insertDesc (p : Int × ArtDesc) : List (Int × ArtDesc) → List (Int × ArtDesc)
  | [] => [p]
  | q :: rest => if p.1 > q.1 then p :: q :: rest else q :: insertDesc p rest

/-- Sorting most-recent-first.  `sort.Slice(referrersWrappers, …After…)`
only promises a permutation ordered by the comparator (it is not stable);
insertion sort realises that contract, and on the pairwise-distinct
timestamps the claims quantify over the ordered permutation is unique, so
this model and the Go sort agree there. -/
def sortDescBy : List (Int × ArtDesc) → List (Int × ArtDesc)
  | [] => []
  | p :: rest => insertDesc p (sortDescBy rest)

/-- The first `Referrers` variant
(`registry/extension/oras/artifactservice.go`, the variant taking an
`artifactType` filter with an empty-filter bypass): ingest every record,
sort the annotated wrappers most recent first, then append the
unannotated descriptors in enumeration order. -/
def Referrers (filter : String) (rs : List RefRecord) :
    Except Unit (List ArtDesc) :=
  match ingestV1 filter ⟨[], []⟩ rs with
  | .error e => .error e
  | .ok acc => .ok ((sortDescBy acc.wrappers).map Prod.snd ++ acc.unsorted)

/-- The annotated wrappers the ingest of the first variant accumulates,
re-derived directly from the records (in enumeration order). -/
def annotatedPairs (filter : String) (rs : List RefRecord) :
    List (Int × ArtDesc) :=
  rs.filterMap fun r =>
    if includeV1 filter r then
      match r.created with
      | some (some t) => some (t, descOf r)
      | _ => none
    else none

/-- The unannotated descriptors of the first variant, in enumeration
order. -/
def unannotatedDescs (filter : String) (rs : List RefRecord) : List ArtDesc :=
  rs.filterMap fun r =>
    if includeV1 filter r ∧ r.created = none then some (descOf r) else none

/-- The digests the first variant includes (before sorting), in
enumeration order. -/
def includedDigests (filter : String) (rs : List RefRecord) : List Dgst :=
  (rs.filter (includeV1 filter)).map RefRecord.dgst

/-- The sort key of the second variant's `Less`: it re-parses the created
annotation and ignores the parse error, so a missing or unparsable
annotation compares as the zero time. -/
def v2Key (r : RefRecord) : Int :=
  match r.created with
  | some (some t) => t
  | _ => 0

/-- The ingest step of the second `Referrers` variant: skip non-artifact
manifests; include iff `ArtifactMan.ArtifactType() == referrerType`
(plain string equality, no empty-filter bypass); annotated descriptors go
to the to-sort bucket, unannotated ones to the tail bucket. -/
def v2Step (referrerType : String)
    (acc : List ArtDesc × List (Int × ArtDesc)) (r : RefRecord) :
    List ArtDesc × List (Int × ArtDesc) :=
  if r.isArtifact then
    if r.artifactType == referrerType then
      match r.created with
      | none => (acc.1 ++ [descOf r], acc.2)
      | some _ => (acc.1, acc.2 ++ [(v2Key r, descOf r)])
    else acc
  else acc

/-- The second `Referrers` variant (same file, the `referrerType`
variant).  Annotated descriptors are sorted by
`sort.Sort(referrersSorted)` and the unannotated ones are appended after
them. -/
def ReferrersV2 (referrerType : String) (rs : List RefRecord) : List ArtDesc :=
  let acc := rs.foldl (v2Step referrerType) ([], [])
  (sortDescBy acc.2).map Prod.snd ++ acc.1

/-- The annotated bucket of the second variant, re-derived from the
records in enumeration order. -/
def annotatedPairsV2 (referrerType : String) (rs : List RefRecord) :
    List (Int × ArtDesc) :=
  rs.filterMap fun r =>
    if r.isArtifact && r.artifactType == referrerType then
      match r.created with
      | some _ => some (v2Key r, descOf r)
      | none => none
    else none

/-- The unannotated bucket of the second variant, in enumeration
order. -/
def unannotatedDescsV2 (referrerType : String) (rs : List RefRecord) :
    List ArtDesc :=
  rs.filterMap fun r =>
    if r.isArtifact && r.artifactType == referrerType && r.created == none then
      some (descOf r)
    else none

/-- The digests the second variant includes, in enumeration order. -/
def includedDigestsV2 (referrerType : String) (rs : List RefRecord) : List Dgst :=
  (rs.filter fun r => r.isArtifact && r.artifactType == referrerType).map
    RefRecord.dgst

end RefSvc

/-- Media type of Docker schema2 image manifests. -/
def schema2MT : String := "application/vnd.docker.distribution.manifest.v2+json"

/-- Media type of Docker manifest lists. -/
def manifestListMT : String :=
  "application/vnd.docker.distribution.manifest.list.v2+json"

/-- Media type of OCI image manifests. -/
def ociImageMT : String := "application/vnd.oci.image.manifest.v1+json"

/-- Media type of OCI image indexes. -/
def ociIndexMT : String := "application/vnd.oci.image.index.v1+json"

/-- Media type of ORAS artifact manifests
(`oras-project/artifacts-spec` `v1.MediaTypeArtifactManifest`). -/
def orasArtifactMT : String :=
  "application/vnd.cncf.oras.artifact.manifest.v1+json"

/-- Media type of OCI artifact manifests
(`opencontainers/image-spec` `v1.MediaTypeArtifactManifest`). -/
def ociArtifactMT : String := "application/vnd.oci.artifact.manifest.v1+json"

namespace ArtPut

/-- The fields of a deserialized ORAS artifact manifest that
`ArtifactManifestHandler.Put`/`verifyManifest` inspect.  `created`
abstracts the `io.cncf.oras.artifact.created` annotation as in `RefSvc`;
`blobs` are the digests of the `blobs[]` descriptors (`References()`),
`subject` the digest of the required subject descriptor, and
`payloadDgst` the digest of the manifest's canonical payload bytes (what
`blobStore.Put` returns as the revision digest). -/
structure OrasManifest where
  artifactType : String
  mediaType : String
  created : Option (Option Int)
  blobs : List Dgst
  subject : Dgst
  payloadDgst : Dgst
deriving DecidableEq, Repr

/-- One element of the `distribution.ErrManifestVerification` aggregate. -/
inductive VerifErr where
  | invalidArtifactType
  | invalidMediaType
  | invalidCreatedAnn
  | manifestBlobUnknown (d : Dgst)
deriving DecidableEq, Repr

/-- The repository as the artifact PUT path sees it: the digests the
repository blob service can `Stat`, the digests for which
`manifestService.Exists` holds, and the referrer link files (subject
digest, referrer digest) present under `_refs/subjects`. -/
structure RepoState where
  blobs : List Dgst
  manifests : List Dgst
  refLinks : List (Dgst × Dgst)
deriving DecidableEq, Repr

/-- `ArtifactManifestHandler.verifyManifest`: the artifact-type,
media-type and created-annotation checks always run; the blob and subject
resolution checks are skipped under `skipDependencyVerification`.  All
failures are accumulated, in source order, into one aggregate. -/
def verifyManifest (st : RepoState) (m : OrasManifest)
    (skipDependencyVerification : Bool) : List VerifErr :=
  let errs : List VerifErr := []
  let errs := if m.artifactType = "" then errs ++ [.invalidArtifactType] else errs
  let errs := if m.mediaType ≠ orasArtifactMT then errs ++ [.invalidMediaType] else errs
  let errs := if m.created = some none then errs ++ [.invalidCreatedAnn] else errs
  if skipDependencyVerification then errs
  else
    let errs := m.blobs.foldl
      (fun es b => if b ∈ st.blobs then es else es ++ [.manifestBlobUnknown b]) errs
    if m.subject ∈ st.manifests then errs
    else errs ++ [.manifestBlobUnknown m.subject]

/-- `ArtifactManifestHandler.Put`: verify, and only on success store the
payload (making the revision digest a statable blob and an existing
manifest) and write the referrer link for the subject
(`indexReferrers`).  The returned state is the repository after the call;
verification failure happens before any write, so the state is then the
input state. -/
def Put (st : RepoState) (m : OrasManifest)
    (skipDependencyVerification : Bool) :
    Except (List VerifErr) Dgst × RepoState :=
  let errs := verifyManifest st m skipDependencyVerification
  if errs.isEmpty then
    let revision := m.payloadDgst
    (.ok revision,
      { blobs := st.blobs ++ [revision]
        manifests := st.manifests ++ [revision]
        refLinks := st.refLinks ++ [(m.subject, revision)] })
  else
    (.error errs, st)

end ArtPut

namespace MStore

/-- The manifest variants the polymorphic store routes
(`type switch` in `manifestStore.Put`). -/
inductive MVariant where
  | schema1
  | schema2
  | ociImage
  | ociIndex
  | orasArtifact
deriving DecidableEq, Repr

/-- A payload byte string, abstracted by what the parsers in the GET/PUT
pipeline extract from it.  Every handler keeps the submitted bytes
verbatim (`canonical`/`raw` is a copy of the input) and `Payload()`
returns them unchanged, so the code observes a payload only through (a)
the `manifest.Versioned` envelope (`ver`, `mt`), (b) whether each
variant's `UnmarshalJSON` succeeds on it and what fields that yields, and
(c) the bytes' identity, which `junk` completes (two payloads with the
same parse results but different formatting differ only there). -/
structure Bytes where
  ver : Nat
  mt : String
  s1 : Bool
  s2 : Bool
  oci : Bool
  listManifests : Option Bool
  oras : Bool
  orasArtifactType : String
  created : Option (Option Int)
  blobRefs : List Dgst
  manifestRefs : List Dgst
  subjectRef : Option Dgst
  junk : Nat
deriving DecidableEq, Repr

/-- Rendering of the abstract payload to a digestable string; mirrors
`digest.FromBytes` hashing the canonical bytes. -/
def encodeBytes (b : Bytes) : String :=
  toString b.ver ++ "|" ++ b.mt ++ "|" ++ toString b.s1 ++ "|"
    ++ toString b.s2 ++ "|" ++ toString b.oci ++ "|"
    ++ (match b.listManifests with
        | none => "L-"
        | some x => "L" ++ toString x) ++ "|"
    ++ toString b.oras ++ "|" ++ b.orasArtifactType ++ "|"
    ++ (match b.created with
        | none => "C-"
        | some none => "Cx"
        | some (some t) => "C" ++ toString t) ++ "|"
    ++ toString (b.blobRefs.map Dgst.str) ++ "|"
    ++ toString (b.manifestRefs.map Dgst.str) ++ "|"
    ++ (match b.subjectRef with
        | none => "S-"
        | some s => "S" ++ s.str) ++ "|"
    ++ toString b.junk

/-- The content digest of a payload. -/
def digestFromBytes (b : Bytes) : Dgst := ⟨"sha256", encodeBytes b⟩

/-- A deserialized manifest: its concrete Go type together with the
canonical bytes it preserves. `Payload()` returns `raw`. -/
structure Man where
  variant : MVariant
  raw : Bytes
deriving DecidableEq, Repr

/-- `Payload()`: the canonical byte representation, exactly the bytes the
manifest was deserialized from. -/
def Man.payload (m : Man) : Bytes := m.raw

/-- `schema1Handler.Unmarshal` (signed v1; handler body outside this
repository, modelled from the spec: recognizes a schema-1 payload and
keeps its bytes). -/
def schema1Unmarshal (b : Bytes) : Option Man :=
  if b.s1 then some ⟨.schema1, b⟩ else none

/-- `schema2Handler.Unmarshal` (modelled from the spec for the codec
body: decode succeeds iff the payload is a schema2 manifest; bytes are
kept verbatim). -/
def schema2Unmarshal (b : Bytes) : Option Man :=
  if b.s2 then some ⟨.schema2, b⟩ else none

/-- `ocischemaManifestHandler.Unmarshal`
(`registry/storage/ocimanifesthandler.go`): `ocischema.UnmarshalJSON` on
the content, keeping the bytes. -/
def ocischemaUnmarshal (b : Bytes) : Option Man :=
  if b.oci then some ⟨.ociImage, b⟩ else none

/-- `manifestListHandler.Unmarshal` (codec body modelled from the spec);
the store's dispatch additionally needs to know whether the decoded
`Manifests` array is non-nil, which `listManifests` carries. -/
def manifestListUnmarshal (b : Bytes) : Option Man :=
  match b.listManifests with
  | some _ => some ⟨.ociIndex, b⟩
  | none => none

/-- `ArtifactManifestHandler.Unmarshal`
(`registry/storage/artifactmanifesthandler.go`):
`orasartifact.UnmarshalJSON` keeps the bytes and fails unless the decode
succeeds, `artifactType` is non-empty and the parsed media type is the
ORAS artifact media type. -/
def orasUnmarshal (b : Bytes) : Option Man :=
  if b.oras ∧ b.orasArtifactType ≠ "" ∧ b.mt = orasArtifactMT then
    some ⟨.orasArtifact, b⟩
  else none

/-- Errors of `manifestStore.Get`. `runtimePanic` models the nil type
assertion in the empty-media-type branch when the image-index decode
errors (`res.(*manifestlist.DeserializedManifestList)` on a nil
interface). -/
inductive GetErr where
  | unknownRevision
  | unmarshalFailed
  | runtimePanic
  | unrecognizedMediaType
  | unrecognizedSchemaVersion
deriving DecidableEq, Repr

/-- The blob-store contents: digest → stored payload bytes (most recent
write first). -/
abbrev BlobStore := List (Dgst × Bytes)

/-- Association-list lookup (first match, the way an overwriting map
behaves with the most recent binding in front). -/
def lookupStore (s : BlobStore) (d : Dgst) : Option Bytes :=
  match s with
  | [] => none
  | (d', b) :: rest => if d' = d then some b else lookupStore rest d

/-- Result of a handler unmarshal as the store's dispatch consumes it. -/
def ofHandler (r : Option Man) : Except GetErr Man :=
  match r with
  | some m => .ok m
  | none => .error .unmarshalFailed

/-- The schema dispatch of `manifestStore.Get` on fetched content:
schema 1 to the signed handler; schema 2 by media type with the
image-index-then-OCI-image fallback when the media type is empty; any
other schema version to the ORAS artifact handler when the media type
matches, otherwise an unrecognized-schema-version error. -/
def dispatch (b : Bytes) : Except GetErr Man :=
  match b.ver with
  | 1 => ofHandler (schema1Unmarshal b)
  | 2 =>
    if b.mt = schema2MT then ofHandler (schema2Unmarshal b)
    else if b.mt = ociImageMT then ofHandler (ocischemaUnmarshal b)
    else if b.mt = manifestListMT ∨ b.mt = ociIndexMT then
      ofHandler (manifestListUnmarshal b)
    else if b.mt = "" then
      match b.listManifests with
      | none => .error .runtimePanic
      | some true => .ok ⟨.ociIndex, b⟩
      | some false => ofHandler (ocischemaUnmarshal b)
    else .error .unrecognizedMediaType
  | _ =>
    if b.mt = orasArtifactMT then ofHandler (orasUnmarshal b)
    else .error .unrecognizedSchemaVersion

/-- `manifestStore.Get` (first variant in the source, the one with an
`orasArtifactHandler` field): fetch the content from the blob store
(*blob-unknown* becomes *manifest-unknown-revision*), then dispatch on
the parsed envelope. -/
def msGet (store : BlobStore) (d : Dgst) : Except GetErr Man :=
  match lookupStore store d with
  | none => .error .unknownRevision
  | some b => dispatch b

/-- Registry-side state the PUT pipeline reads and writes: blob contents,
the set of digests `manifestService.Exists` accepts, and the referrer
links. -/
structure RegState where
  store : BlobStore
  manifests : List Dgst
  links : List (Dgst × Dgst)
deriving DecidableEq, Repr

/-- Dependency verification per variant (§4.D.verify): schema-level
checks always run; reference resolution is skipped under
`skipDependencyVerification`.  For the two handlers present in the source
(OCI image, ORAS artifact) this mirrors their `verifyManifest`; for the
schema1/schema2/manifest-list handlers the resolution requirement is
modelled from the spec (every referenced blob must stat, every child
manifest must exist). -/
def verifyOk (st : RegState) (m : Man) (skip : Bool) : Bool :=
  let blobsOk := m.raw.blobRefs.all fun b =>
    (st.store.map Prod.fst).contains b
  let childrenOk := m.raw.manifestRefs.all fun c => st.manifests.contains c
  let subjectOk := match m.raw.subjectRef with
    | none => true
    | some s => st.manifests.contains s
  match m.variant with
  | .schema1 => true
  | .schema2 => m.raw.ver == 2 && (skip || blobsOk && childrenOk)
  | .ociImage => m.raw.ver == 2 && (skip || blobsOk && childrenOk && subjectOk)
  | .ociIndex => skip || childrenOk
  | .orasArtifact =>
    m.raw.orasArtifactType != "" && m.raw.mt == orasArtifactMT
      && m.raw.created != some none
      && (skip || blobsOk && (match m.raw.subjectRef with
          | none => false
          | some s => st.manifests.contains s))

/-- The referrer links a successful PUT writes (`indexReferrers`): the
OCI image handler writes one when a subject is present, the ORAS artifact
handler always writes one for its subject. -/
def linkWrites (m : Man) (revision : Dgst) : List (Dgst × Dgst) :=
  match m.variant, m.raw.subjectRef with
  | .ociImage, some s => [(s, revision)]
  | .orasArtifact, some s => [(s, revision)]
  | _, _ => []

/-- `manifestStore.Put`: dispatch on the concrete manifest type, verify,
store the canonical payload bytes via the linked blob store (which makes
the revision digest resolvable), index referrers, and return the
revision digest. -/
def msPut (st : RegState) (m : Man) (skip : Bool) :
    Except Unit (Dgst × RegState) :=
  if verifyOk st m skip then
    let d := digestFromBytes m.payload
    .ok (d,
      { store := (d, m.payload) :: st.store
        manifests := d :: st.manifests
        links := st.links ++ linkWrites m d })
  else .error ()

/-- A payload is well formed for a variant when the envelope routes the
stored bytes back to that variant's handler and that handler's decode
succeeds on them.  In Go this holds for every value of the concrete
manifest type by construction (each `DeserializedManifest` is produced by
the very decoder `Get` dispatches to); the shallow embedding states it
explicitly. -/
def routesTo (m : Man) : Prop :=
  match m.variant with
  | .schema1 => m.raw.ver = 1 ∧ m.raw.s1
  | .schema2 => m.raw.ver = 2 ∧ m.raw.mt = schema2MT ∧ m.raw.s2
  | .ociImage =>
    m.raw.ver = 2 ∧
      ((m.raw.mt = ociImageMT ∧ m.raw.oci) ∨
        (m.raw.mt = "" ∧ m.raw.listManifests = some false ∧ m.raw.oci))
  | .ociIndex =>
    m.raw.ver = 2 ∧
      (((m.raw.mt = manifestListMT ∨ m.raw.mt = ociIndexMT) ∧
          m.raw.listManifests.isSome) ∨
        (m.raw.mt = "" ∧ m.raw.listManifests = some true))
  | .orasArtifact =>
    m.raw.ver ≠ 1 ∧ m.raw.ver ≠ 2 ∧ m.raw.mt = orasArtifactMT ∧
      m.raw.oras ∧ m.raw.orasArtifactType ≠ ""

instance (m : Man) : Decidable (routesTo m) := by
  unfold routesTo
  cases m.variant <;> infer_instance

/-- Digest stability of a blob store: every stored payload hashes to the
digest it is stored under.  `blobStore.Put` establishes this by
construction (the write key is `digest.FromBytes` of the content). -/
def wfStore (s : BlobStore) : Prop :=
  ∀ p ∈ s, digestFromBytes p.2 = p.1

instance (s : BlobStore) : Decidable (wfStore s) := by
  unfold wfStore
  infer_instance

end MStore

namespace GC

/-- What the mark loop observes of one stored manifest: the media type
its `Payload()` reports and the digests of its `References()`. -/
structure GoManifest where
  mediaType : String
  references : List Dgst
deriving DecidableEq, Repr

/-- One repository: its manifest revisions (digest → manifest, in
enumeration order), its current tags, and its referrer directories — an
entry `(s, rs)` means the folder `_refs/subjects/<s.alg>/<s.hex>` exists
and walking it yields the link files for the referrer digests `rs` in
order; a subject with no entry has no referrer folder
(`driver.PathNotFoundError` on `Stat`/`Walk`). -/
structure Repo where
  name : String
  manifests : List (Dgst × GoManifest)
  tags : List (String × Dgst)
  refLinks : List (Dgst × List Dgst)
deriving DecidableEq, Repr

/-- The registry: all repositories and the global content-addressed blob
store (the digests `registry.Blobs().Enumerate` yields and the global
`BlobStatter` resolves). -/
structure RegState where
  repos : List Repo
  blobs : List Dgst
deriving DecidableEq, Repr

/-- `GCOpts`. -/
structure GCOpts where
  dryRun : Bool
  removeUntagged : Bool
deriving DecidableEq, Repr

/-- The mark-phase accumulators of `MarkAndSweep`: `markSet`,
`manifestArr` (entries `(repo name, digest, all repo tags)`), and
`artifactManifestIndex` (artifact digest → repository name). -/
structure Acc where
  markSet : List Dgst
  manifestArr : List (String × Dgst × List String)
  artifactIndex : List (Dgst × String)
deriving DecidableEq, Repr

/-- Errors that abort a run; `outOfFuel` is the embedding's bound on the
depth of the referrer-graph recursion (the Go code recurses without a
bound and terminates because the stored graph is acyclic). -/
inductive GcErr where
  | outOfFuel
  | getManifestFailed (d : Dgst)
deriving DecidableEq, Repr

/-- Set-insert into the mark set (`markSet[dgst] = struct{}{}`). -/
def markBlob (s : List Dgst) (d : Dgst) : List Dgst :=
  if d ∈ s then s else s ++ [d]

/-- Mark every digest of a descriptor list. -/
def markAll (s : List Dgst) (ds : List Dgst) : List Dgst :=
  ds.foldl markBlob s

/-- Map-insert into the artifact index
(`artifactManifestIndex[referrerRevision] = ArtifactManifestDel{…}`). -/
def indexInsert (idx : List (Dgst × String)) (d : Dgst) (name : String) :
    List (Dgst × String) :=
  if idx.any (fun p => p.1 = d) then
    idx.map fun p => if p.1 = d then (d, name) else p
  else idx ++ [(d, name)]

/-- Lookup of a manifest revision in a repository
(`manifestService.Get`). -/
def lookupMan (r : Repo) (d : Dgst) : Option GoManifest :=
  match r.manifests.find? (fun p => p.1 = d) with
  | some p => some p.2
  | none => none

/-- The referrer folder of a digest: `none` when the folder does not
exist (`PathNotFoundError`), otherwise the listed referrer digests. -/
def lookupLinks (r : Repo) (d : Dgst) : Option (List Dgst) :=
  match r.refLinks.find? (fun p => p.1 = d) with
  | some p => some p.2
  | none => none

/-- `repository.Tags(ctx).Lookup`: the tags currently pointing at a
digest. -/
def tagsPointing (r : Repo) (d : Dgst) : List String :=
  (r.tags.filter (fun p => p.2 = d)).map Prod.fst

/-- `repository.Tags(ctx).All`. -/
def allTags (r : Repo) : List String := r.tags.map Prod.fst

/-- The two ingestors `EnumerateReferrerLinks` is driven with. -/
inductive Ingestor where
  | mark
  | sweep
deriving DecidableEq, Repr

/-- `EnumerateReferrerLinks` over a referrer folder's link files, driven
by an ingestor (`ocimanifesthandler.go`).  For each link file the digest
is read and statted against the global blob store; *blob-unknown* is
tolerated by skipping the link.  `artifactMarkIngestor` loads the
referrer manifest (failure aborts the run), marks it and all its
referenced blobs, and recurses into its own referrer folder with the mark
ingestor; a missing folder short-circuits to success.
`artifactSweepIngestor` records the referrer in the artifact deletion
index and then — exactly as the source does on its final line — recurses
into the referrer's folder with the *mark* ingestor, so anything below
the first level is marked, not indexed. -/
def walkLinks (fuel : Nat) (st : RegState) (repo : Repo) (ing : Ingestor)
    (ds : List Dgst) (acc : Acc) : Except GcErr Acc :=
  match fuel with
  | 0 => .error .outOfFuel
  | f + 1 =>
    match ds with
    | [] => .ok acc
    | r :: rest =>
      if r ∈ st.blobs then
        let step : Except GcErr Acc :=
          match ing with
          | .mark =>
            match lookupMan repo r with
            | none => .error (.getManifestFailed r)
            | some man =>
              let acc1 :=
                { acc with markSet := markAll (markBlob acc.markSet r) man.references }
              match lookupLinks repo r with
              | none => .ok acc1
              | some children => walkLinks f st repo .mark children acc1
          | .sweep =>
            let acc1 :=
              { acc with artifactIndex := indexInsert acc.artifactIndex r repo.name }
            match lookupLinks repo r with
            | none => .ok acc1
            | some children => walkLinks f st repo .mark children acc1
        match step with
        | .error e => .error e
        | .ok acc' => walkLinks f st repo ing rest acc'
      else walkLinks f st repo ing rest acc

/-- The per-manifest body of the mark phase (the closure passed to
`manifestEnumerator.Enumerate`): ORAS-artifact-media-type manifests are
skipped outright; with `removeUntagged` set, an untagged manifest is
scheduled for deletion together with all current repository tags and its
referrer subtree is walked with the sweep ingestor; otherwise the
manifest and all its references are marked and its referrer subtree is
walked with the mark ingestor.  A missing referrer folder is tolerated
(`PathNotFoundError` → nil). -/
def manifestStep (fuel : Nat) (st : RegState) (repo : Repo) (opts : GCOpts)
    (d : Dgst) (man : GoManifest) (acc : Acc) : Except GcErr Acc :=
  if man.mediaType = orasArtifactMT then .ok acc
  else if opts.removeUntagged ∧ tagsPointing repo d = [] then
    let acc1 :=
      { acc with manifestArr := acc.manifestArr ++ [(repo.name, d, allTags repo)] }
    match lookupLinks repo d with
    | none => .ok acc1
    | some children => walkLinks fuel st repo .sweep children acc1
  else
    let acc1 :=
      { acc with markSet := markAll (markBlob acc.markSet d) man.references }
    match lookupLinks repo d with
    | none => .ok acc1
    | some children => walkLinks fuel st repo .mark children acc1

/-- The mark phase over one repository: enumerate its manifest revisions
in order, aborting on the first error. -/
def markRepo (fuel : Nat) (st : RegState) (repo : Repo) (opts : GCOpts) :
    List (Dgst × GoManifest) → Acc → Except GcErr Acc
  | [], acc => .ok acc
  | (d, man) :: rest, acc =>
    match manifestStep fuel st repo opts d man acc with
    | .error e => .error e
    | .ok acc' => markRepo fuel st repo opts rest acc'

/-- The mark phase over all repositories. -/
def markPhase (fuel : Nat) (st : RegState) (opts : GCOpts) :
    List Repo → Acc → Except GcErr Acc
  | [], acc => .ok acc
  | repo :: rest, acc =>
    match markRepo fuel st repo opts repo.manifests acc with
    | .error e => .error e
    | .ok acc' => markPhase fuel st opts rest acc'

/-- `Vacuum.RemoveManifest` as it affects the modelled state: the
revision and the referrer folder of the digest disappear from the named
repository (tag *index* entries are historical links outside this model;
current tags are untouched). -/
def removeManifestState (st : RegState) (name : String) (d : Dgst) : RegState :=
  { st with
    repos := st.repos.map fun r =>
      if r.name = name then
        { r with
          manifests := r.manifests.filter (fun p => p.1 ≠ d)
          refLinks := r.refLinks.filter (fun p => p.1 ≠ d) }
      else r }

/-- `Vacuum.RemoveArtifactManifest`: same state effect — revision plus
referrer folder of the artifact digest. -/
def removeArtifactManifestState (st : RegState) (name : String) (d : Dgst) :
    RegState :=
  removeManifestState st name d

/-- The final result of a run: the swept registry, the mark-phase
accumulators, and the blob digests scheduled for deletion. -/
structure GCResult where
  state : RegState
  acc : Acc
  deleteSet : List Dgst
deriving DecidableEq, Repr

/-- `MarkAndSweep` (`registry/storage/ocimanifesthandler.go`): run the
mark phase; then, unless dry-run, vacuum every scheduled manifest and
every indexed artifact manifest; enumerate the global blobs, schedule
every digest not in the mark set, and delete the scheduled blobs. -/
def MarkAndSweep (fuel : Nat) (st : RegState) (opts : GCOpts) :
    Except GcErr GCResult :=
  match markPhase fuel st opts st.repos ⟨[], [], []⟩ with
  | .error e => .error e
  | .ok acc =>
    let st1 :=
      if opts.dryRun then st
      else
        let stA := acc.manifestArr.foldl
          (fun s obj => removeManifestState s obj.1 obj.2.1) st
        acc.artifactIndex.foldl
          (fun s obj => removeArtifactManifestState s obj.2 obj.1) stA
    let deleteSet := st1.blobs.filter (fun d => d ∉ acc.markSet)
    let st2 :=
      if opts.dryRun then st1
      else { st1 with blobs := st1.blobs.filter (fun d => d ∈ acc.markSet) }
    .ok ⟨st2, acc, deleteSet⟩

end GC

namespace Ex

/-- Projection of a GC run onto the surviving global blobs. -/
def gcBlobs (r : Except GC.GcErr GC.GCResult) : Option (List Dgst) :=
  r.toOption.map fun x => x.state.blobs

/-- Projection of a GC run onto the final mark set. -/
def gcMarkSet (r : Except GC.GcErr GC.GCResult) : Option (List Dgst) :=
  r.toOption.map fun x => x.acc.markSet

/-- Projection of a GC run onto the scheduled manifest deletions. -/
def gcManifestArr (r : Except GC.GcErr GC.GCResult) :
    Option (List (String × Dgst × List String)) :=
  r.toOption.map fun x => x.acc.manifestArr

/-- Projection of a GC run onto the artifact deletion index. -/
def gcIndex (r : Except GC.GcErr GC.GCResult) : Option (List (Dgst × String)) :=
  r.toOption.map fun x => x.acc.artifactIndex

/-- Projection of a GC run onto the manifest revisions remaining in the
named repository. -/
def gcRepoManifests (r : Except GC.GcErr GC.GCResult) (name : String) :
    Option (List Dgst) :=
  r.toOption.map fun x =>
    ((x.state.repos.filter (fun rp => rp.name = name)).map
      (fun rp => rp.manifests.map Prod.fst)).flatten

/-- C1 counterexample registry: repository `r` holds an untagged OCI
image `c1U`, and a *tagged* ORAS artifact `c1A` that refers to `c1U`
(referrer link present) and references blob `c1B`. -/
def c1U : Dgst := ⟨"sha256", "c1subject"⟩

/-- The tagged ORAS artifact of the C1 counterexample. -/
def c1A : Dgst := ⟨"sha256", "c1artifact"⟩

/-- The artifact blob of the C1 counterexample. -/
def c1B : Dgst := ⟨"sha256", "c1blob"⟩

/-- The C1 counterexample registry state. -/
def c1St : GC.RegState :=
  ⟨[⟨"r",
      [(c1U, ⟨ociImageMT, []⟩), (c1A, ⟨orasArtifactMT, [c1B]⟩)],
      [("t", c1A)],
      [(c1U, [c1A])]⟩],
    [c1U, c1A, c1B]⟩

/-- C1 witness registry: a tagged OCI image `c1wM` whose referrer is the
untagged ORAS artifact `c1wA`. -/
def c1wM : Dgst := ⟨"sha256", "c1wimage"⟩

/-- The untagged but referenced artifact of the C1/C5 witness. -/
def c1wA : Dgst := ⟨"sha256", "c1wartifact"⟩

/-- The C1/C5 witness repository. -/
def c1wRepo : GC.Repo :=
  ⟨"r",
    [(c1wM, ⟨ociImageMT, []⟩), (c1wA, ⟨orasArtifactMT, []⟩)],
    [("t", c1wM)],
    [(c1wM, [c1wA])]⟩

/-- The C1/C5 witness registry state. -/
def c1wSt : GC.RegState := ⟨[c1wRepo], [c1wM, c1wA]⟩

/-- The result of the C1/C5 witness run. -/
def c1wRes : GC.GCResult :=
  (GC.MarkAndSweep 10 c1wSt ⟨false, true⟩).toOption.getD
    ⟨⟨[], []⟩, ⟨[], [], []⟩, []⟩

/-- C4 failing input: untagged image `c4U`; artifact `c4A1` refers to
`c4U`; artifact `c4A2` refers to `c4A1`. -/
def c4U : Dgst := ⟨"sha256", "c4subject"⟩

/-- First-level referrer of the C4 failing input. -/
def c4A1 : Dgst := ⟨"sha256", "c4art1"⟩

/-- Second-level referrer (referrer of the referrer) of the C4 failing
input. -/
def c4A2 : Dgst := ⟨"sha256", "c4art2"⟩

/-- The C4 failing registry state. -/
def c4St : GC.RegState :=
  ⟨[⟨"r",
      [(c4U, ⟨ociImageMT, []⟩), (c4A1, ⟨orasArtifactMT, []⟩),
        (c4A2, ⟨orasArtifactMT, []⟩)],
      [],
      [(c4U, [c4A1]), (c4A1, [c4A2])]⟩],
    [c4U, c4A1, c4A2]⟩

/-- C5 counterexample: a single untagged manifest whose media type is the
*OCI* artifact media type. -/
def c5X : Dgst := ⟨"sha256", "c5ociartifact"⟩

/-- The C5 counterexample registry state. -/
def c5St : GC.RegState :=
  ⟨[⟨"r", [(c5X, ⟨ociArtifactMT, []⟩)], [], []⟩], [c5X]⟩

/-- Referrer records for the C6 witness, in enumeration order: January,
March and February artifacts carrying created annotations, then an
unannotated one — the spec's scenario 3. -/
def c6Rs : List RefSvc.RefRecord :=
  [⟨⟨"sha256", "jan"⟩, true, "app/notary", some (some 1), 10, orasArtifactMT⟩,
    ⟨⟨"sha256", "mar"⟩, true, "app/notary", some (some 3), 11, orasArtifactMT⟩,
    ⟨⟨"sha256", "feb"⟩, true, "app/notary", some (some 2), 12, orasArtifactMT⟩,
    ⟨⟨"sha256", "none"⟩, true, "app/notary", none, 13, orasArtifactMT⟩]

/-- The listing the C6 witness expects: March, February, January, then
the unannotated referrer. -/
def c6Out : List RefSvc.ArtDesc :=
  [⟨orasArtifactMT, 11, ⟨"sha256", "mar"⟩, "app/notary"⟩,
    ⟨orasArtifactMT, 12, ⟨"sha256", "feb"⟩, "app/notary"⟩,
    ⟨orasArtifactMT, 10, ⟨"sha256", "jan"⟩, "app/notary"⟩,
    ⟨orasArtifactMT, 13, ⟨"sha256", "none"⟩, "app/notary"⟩]

/-- A referrer whose artifact type is non-empty, for the C7
counterexample against the second `Referrers` variant. -/
def c7R : RefSvc.RefRecord :=
  ⟨⟨"sha256", "c7ref"⟩, true, "app/x", none, 5, orasArtifactMT⟩

/-- The referrers list of the C8 examples. -/
def c8Rs : List Dgst :=
  [⟨"sha256", "pa"⟩, ⟨"sha256", "pb"⟩, ⟨"sha256", "pc"⟩, ⟨"sha256", "pd"⟩]

/-- A syntactically well-formed token carrying a digest absent from
`c8Rs`. -/
def c8StrayTok : Page.Token := .parts [some ⟨"sha256", "stray"⟩]

/-- A well-formed token naming the second element of `c8Rs`. -/
def c8HitTok : Page.Token := .parts [some ⟨"sha256", "pb"⟩]

/-- The ORAS artifact manifest of the C2 witness (no blobs, a subject,
put with dependency verification skipped). -/
def c2M : MStore.Man :=
  ⟨.orasArtifact,
    ⟨0, orasArtifactMT, false, false, false, none, true, "app/notary",
      none, [], [], some ⟨"sha256", "c2subj"⟩, 7⟩⟩

/-- The digest the C2 witness payload hashes to. -/
def c2D : Dgst := MStore.digestFromBytes c2M.payload

/-- The registry state after the C2 witness put. -/
def c2St' : MStore.RegState :=
  ⟨[(c2D, c2M.raw)], [c2D], [(⟨"sha256", "c2subj"⟩, c2D)]⟩

/-- The ORAS artifact of the C3 witness: one dangling blob reference and
a dangling subject. -/
def c3M : ArtPut.OrasManifest :=
  ⟨"app/notary", orasArtifactMT, none, [⟨"sha256", "deadbeef"⟩],
    ⟨"sha256", "c3subj"⟩, ⟨"sha256", "c3rev"⟩⟩

end Ex

/-!
## Theorems

The claims of the specification, settled against the embedded code.
Helper lemmas come first, the per-claim theorems (and their witnesses or
counterexamples) after them.
-/

/-- Claim C9 (the code contradicts it): `Vacuum.RemoveManifest` returns
success even when deleting the referrer-root folder fails with a hard,
non-path-not-found error — the source never assigns that `Delete`'s
return value, and the error check that follows inspects a stale `err`
that is nil at that point.  On `hardRefRootDriver` the referrer-root
delete fails with `disk failure`, yet the call reports `ok`. -/
theorem c9_removeManifest_swallows_hard_referrer_root_error :
    Vacuum.RemoveManifest Vacuum.hardRefRootDriver "library/app"
        ⟨"sha256", "aaa"⟩ ["latest"] = .ok ()
      ∧ Vacuum.hardRefRootDriver.delete
          (Vacuum.manifestRefFolderPath "library/app" ⟨"sha256", "aaa"⟩)
        = some (.other "disk failure") := by
  constructor
  · decide
  · decide

/-- Claim C4 (the code contradicts it): with untagged subject `c4U`,
direct referrer `c4A1` and second-level referrer `c4A2`, the sweep walk
indexes only `c4A1` for deletion; `c4A2` is added to the mark set
instead, because `artifactSweepIngestor` recurses with
`artifactMarkIngestor`.  The claim says every transitively encountered
referrer lands in the artifact deletion index. -/
theorem c4_transitive_referrer_marked_not_indexed :
    Ex.gcIndex (GC.MarkAndSweep 10 Ex.c4St ⟨false, true⟩)
        = some [(Ex.c4A1, "r")]
      ∧ Ex.gcMarkSet (GC.MarkAndSweep 10 Ex.c4St ⟨false, true⟩)
        = some [Ex.c4A2]
      ∧ Ex.gcManifestArr (GC.MarkAndSweep 10 Ex.c4St ⟨false, true⟩)
        = some [("r", Ex.c4U, [])] := by
  refine ⟨?_, ?_, ?_⟩ <;> decide

/-- Claim C5 counterexample: a manifest whose media type is the *OCI*
artifact media type is not skipped by the per-manifest marking loop — the
loop only skips the ORAS artifact media type — so, untagged, it is
scheduled for deletion and swept. -/
theorem c5_counterexample_oci_artifact_not_skipped :
    (Ex.c5St.repos.map fun r => r.manifests)
        = [[(Ex.c5X, ⟨ociArtifactMT, []⟩)]]
      ∧ Ex.gcManifestArr (GC.MarkAndSweep 10 Ex.c5St ⟨false, true⟩)
        = some [("r", Ex.c5X, [])]
      ∧ Ex.gcRepoManifests (GC.MarkAndSweep 10 Ex.c5St ⟨false, true⟩) "r"
        = some [] := by
  refine ⟨?_, ?_, ?_⟩ <;> decide

/-- Claim C1 counterexample: in `c1St` the ORAS artifact `c1A` is tagged
(`"t"` points at it) and is the referrer of the untagged image `c1U`.
The marking loop skips `c1A` before ever looking at its tags, the sweep
walk of `c1U` indexes it for deletion, and the run deletes the tagged
manifest `c1A` — its repository revision and its global blob — refuting
"every tagged manifest … survives the run". -/
theorem c1_counterexample_tagged_artifact_swept :
    (Ex.c1St.repos.map fun r => r.tags) = [[("t", Ex.c1A)]]
      ∧ Ex.gcBlobs (GC.MarkAndSweep 10 Ex.c1St ⟨false, true⟩) = some []
      ∧ Ex.gcRepoManifests (GC.MarkAndSweep 10 Ex.c1St ⟨false, true⟩) "r"
        = some []
      ∧ Ex.gcMarkSet (GC.MarkAndSweep 10 Ex.c1St ⟨false, true⟩) = some [] := by
  refine ⟨?_, ?_, ?_, ?_⟩ <;> decide

/-- Claim C7 counterexample: the second `Referrers` variant filters with
plain string equality, so with an *empty* filter a referrer whose
artifact type is `app/x` is not included — refuting "with an empty
filter, every referrer is included". -/
theorem c7_counterexample_empty_filter_excludes_in_v2 :
    RefSvc.ReferrersV2 "" [Ex.c7R] = []
      ∧ Ex.c7R.isArtifact = true
      ∧ Ex.c7R.artifactType ≠ "" := by
  refine ⟨?_, ?_, ?_⟩ <;> decide

/-- Claim C8 counterexample: a syntactically well-formed `nextToken`
whose digest appears nowhere in the current result does *not* fail with
malformed-next-token — the page silently starts at the beginning of the
result (and a `Link` token for the next page is emitted). -/
theorem c8_counterexample_unmatched_token_not_malformed :
    Page.tokenDigests Ex.c8StrayTok = some [⟨"sha256", "stray"⟩]
      ∧ (⟨"sha256", "stray"⟩ : Dgst) ∉ Ex.c8Rs
      ∧ Page.getReferrersPage Ex.c8Rs (some 3) Ex.c8StrayTok
        = .page [⟨"sha256", "pa"⟩, ⟨"sha256", "pb"⟩, ⟨"sha256", "pc"⟩]
            (some [⟨"sha256", "pc"⟩, ⟨"sha256", "pb"⟩, ⟨"sha256", "pa"⟩]) := by
  refine ⟨?_, ?_, ?_⟩ <;> decide

/-- Claim C10: whenever a referrers GET succeeds, the JSON body's
referrers list is never `null` — a nil result (including the one produced
when the subject has no referrer directory at all, surfaced as
path-not-found and translated to a nil list) is replaced by a non-nil
empty slice before encoding, in both the ORAS handler and the OCI 1.1
index handler. -/
theorem c10_referrers_body_never_null :
    (∀ (w : HttpRef.WalkOutcome) (nRaw : Option Int) (tok : Page.Token)
        (v : HttpRef.JsonVal),
        HttpRef.getReferrersBody w nRaw tok = some v → v ≠ .null)
      ∧ (∀ nRaw : Option Int,
          HttpRef.getReferrersBody .pathNotFound nRaw .absent
            = some (.arr 0))
      ∧ (∀ (w : HttpRef.WalkOutcome) (v : HttpRef.JsonVal),
          HttpRef.getReferrersIndexManifests w = some v → v ≠ .null)
      ∧ HttpRef.getReferrersIndexManifests .pathNotFound = some (.arr 0) := by
  have key : ∀ (p : Page.PageOutcome) (v : HttpRef.JsonVal),
      HttpRef.pageBody p = some v → v ≠ .null := by
    intro p v hv
    cases p with
    | malformed => exact absurd hv (by simp [HttpRef.pageBody])
    | panicked => exact absurd hv (by simp [HttpRef.pageBody])
    | page body nt =>
      simp only [HttpRef.pageBody, HttpRef.marshalSlice,
        Option.some.injEq] at hv
      subst hv
      simp
  refine ⟨?_, ?_, ?_, ?_⟩
  · intro w nRaw tok v h
    unfold HttpRef.getReferrersBody at h
    rcases hr : HttpRef.referrersResult w with e | r <;> rw [hr] at h
    · exact absurd h (by simp)
    · exact key _ v h
  · intro nRaw
    have h0 : ¬ (List.length ([] : List Dgst)
        > (Page.normalizePageSize nRaw).toNat) := by
      simp
    simp [HttpRef.getReferrersBody, HttpRef.referrersResult,
      Page.getReferrersPage, Page.tokenDigests, h0, HttpRef.nilReplace,
      HttpRef.pageBody, HttpRef.marshalSlice]
  · intro w v h
    unfold HttpRef.getReferrersIndexManifests at h
    rcases hr : HttpRef.referrersResult w with e | r <;> rw [hr] at h
    · exact absurd h (by simp)
    · simp only [Option.some.injEq] at h
      subst h
      simp [HttpRef.marshalSlice]
  · simp [HttpRef.getReferrersIndexManifests, HttpRef.referrersResult,
      HttpRef.marshalSlice, HttpRef.nilReplace]

/-- Claim C10 witness: the theorem applied to a successful walk with one
referrer, page size 50, no token. -/
theorem c10_witness :
    HttpRef.getReferrersBody (.ok [⟨"sha256", "w10"⟩]) none .absent
        = some (.arr 1)
      ∧ (HttpRef.JsonVal.arr 1) ≠ .null :=
  ⟨by decide,
    c10_referrers_body_never_null.1 (.ok [⟨"sha256", "w10"⟩]) none .absent
      (.arr 1) (by decide)⟩

/-- The `startIndex` scan never lowers the running start index. -/
theorem siStep_le (rs toks : List Dgst) (s i : Nat) :
    s ≤ Page.siStep rs toks s i := by
  unfold Page.siStep
  cases h : rs.get? i with
  | none => exact le_refl s
  | some r =>
    by_cases hc : r ∈ toks ∧ i + 1 > s
    · simp only [if_pos hc]; omega
    · simp only [if_neg hc]; exact le_refl s

/-- Folding the `startIndex` scan over any index list never lowers the
running start index. -/
theorem siFold_le (rs toks : List Dgst) :
    ∀ (l : List Nat) (s : Nat), s ≤ l.foldl (Page.siStep rs toks) s := by
  intro l
  induction l with
  | nil => intro s; exact le_refl s
  | cons i l ih =>
    intro s
    exact le_trans (siStep_le rs toks s i) (ih (Page.siStep rs toks s i))

/-- Every scanned index whose digest matches a token digest ends up below
the resulting start index. -/
theorem siFold_ge_match (rs toks : List Dgst) :
    ∀ (l : List Nat) (s i : Nat) (g : Dgst), i ∈ l → rs.get? i = some g →
      g ∈ toks → i + 1 ≤ l.foldl (Page.siStep rs toks) s := by
  intro l
  induction l with
  | nil => intro s i g hi; exact absurd hi (List.not_mem_nil i)
  | cons j l ih =>
    intro s i g hi hget hmem
    rcases List.mem_cons.mp hi with h | h
    · subst h
      have hstep : i + 1 ≤ Page.siStep rs toks s i := by
        unfold Page.siStep
        rw [hget]
        by_cases hc : g ∈ toks ∧ i + 1 > s
        · simp only [if_pos hc]; exact le_refl _
        · simp only [if_neg hc]
          have : ¬ i + 1 > s := fun hgt => hc ⟨hmem, hgt⟩
          omega
      exact le_trans hstep (siFold_le rs toks l _)
    · exact ih _ i g h hget hmem

/-- The `startIndex` scan result is either the initial value or the
successor of a matched index. -/
theorem siFold_cases (rs toks : List Dgst) :
    ∀ (l : List Nat) (s : Nat),
      l.foldl (Page.siStep rs toks) s = s ∨
        ∃ i ∈ l, ∃ g, rs.get? i = some g ∧ g ∈ toks ∧
          l.foldl (Page.siStep rs toks) s = i + 1 := by
  intro l
  induction l with
  | nil => intro s; exact Or.inl rfl
  | cons j l ih =>
    intro s
    rcases ih (Page.siStep rs toks s j) with h | ⟨i, hi, g, hget, hmem, heq⟩
    · rw [List.foldl_cons, h]
      unfold Page.siStep
      cases hget : rs.get? j with
      | none => exact Or.inl rfl
      | some r =>
        by_cases hc : r ∈ toks ∧ j + 1 > s
        · exact Or.inr ⟨j, List.mem_cons_self j l, r,
            hget, hc.1, by simp only [if_pos hc]⟩
        · exact Or.inl (by simp only [if_neg hc])
    · exact Or.inr ⟨i, List.mem_cons_of_mem j hi, g, hget, hmem,
        by rw [List.foldl_cons, heq]⟩

/-- Every match of a token digest lies strictly below `startIndex`. -/
theorem startIndex_gt_matches (rs toks : List Dgst) (j : Nat) (g : Dgst)
    (hget : rs.get? j = some g) (hmem : g ∈ toks) :
    j < Page.startIndex rs toks := by
  have hj : j < rs.length := List.get?_eq_some.mp hget |>.1
  have := siFold_ge_match rs toks (List.range rs.length) 0 j g
    (List.mem_range.mpr hj) hget hmem
  unfold Page.startIndex
  omega

/-- When no token digest occurs in the result, `startIndex` is zero. -/
theorem startIndex_eq_zero_of_no_match (rs toks : List Dgst)
    (h : ∀ g ∈ toks, g ∉ rs) : Page.startIndex rs toks = 0 := by
  unfold Page.startIndex
  rcases siFold_cases rs toks (List.range rs.length) 0 with
    heq | ⟨i, _, g, hget, hmem, _⟩
  · exact heq
  · exact absurd (List.get?_mem hget) (h g hmem)

/-- `startIndex` is zero or the successor of a matched index. -/
theorem startIndex_cases (rs toks : List Dgst) :
    Page.startIndex rs toks = 0 ∨
      ∃ i g, rs.get? i = some g ∧ g ∈ toks ∧
        Page.startIndex rs toks = i + 1 := by
  unfold Page.startIndex
  rcases siFold_cases rs toks (List.range rs.length) 0 with
    heq | ⟨i, _, g, hget, hmem, heq⟩
  · exact Or.inl heq
  · exact Or.inr ⟨i, g, hget, hmem, heq⟩

/-- `getReferrers` pagination returns *malformed-next-token* exactly when
the token fails base64 decoding or one of its digests fails parsing. -/
theorem getReferrersPage_malformed_iff (rs : List Dgst) (nRaw : Option Int)
    (tok : Page.Token) :
    Page.getReferrersPage rs nRaw tok = .malformed ↔
      Page.tokenDigests tok = none := by
  unfold Page.getReferrersPage
  cases ht : Page.tokenDigests tok with
  | none => simp
  | some toks =>
    simp only [Option.some_ne_none, iff_false]
    intro h
    repeat' split at h
    all_goals exact absurd h (by simp)

/-- Claim C8, amended: for a well-formed `nextToken` the request is never
rejected as malformed (malformed-next-token arises exactly from base64 or
digest-parse failure); the start index strictly dominates every match of
a token digest, is zero when no token digest occurs in the current
result, and is either zero or the successor of a matching index; and when
pagination is active and the start index lies inside the result, the page
is exactly the next `n` elements after it. -/
theorem c8_amended_pagination (rs : List Dgst) (nRaw : Option Int)
    (tok : Page.Token) (toks : List Dgst)
    (h1 : Page.tokenDigests tok = some toks) (h2 : toks ≠ []) :
    Page.getReferrersPage rs nRaw tok ≠ .malformed
      ∧ (∀ tok' : Page.Token, Page.tokenDigests tok' = none →
          Page.getReferrersPage rs nRaw tok' = .malformed)
      ∧ (∀ j g, rs.get? j = some g → g ∈ toks →
          j < Page.startIndex rs toks)
      ∧ ((∀ g ∈ toks, g ∉ rs) → Page.startIndex rs toks = 0)
      ∧ (Page.startIndex rs toks = 0 ∨
          ∃ i g, rs.get? i = some g ∧ g ∈ toks ∧
            Page.startIndex rs toks = i + 1)
      ∧ (rs.length > (Page.normalizePageSize nRaw).toNat →
          Page.startIndex rs toks < rs.length →
          ∃ nt, Page.getReferrersPage rs nRaw tok =
            .page ((rs.drop (Page.startIndex rs toks)).take
              (Page.normalizePageSize nRaw).toNat) nt) := by
  refine ⟨?_, ?_, ?_, ?_, ?_, ?_⟩
  · intro h
    rw [getReferrersPage_malformed_iff] at h
    rw [h1] at h
    exact absurd h (by simp)
  · intro tok' h
    exact (getReferrersPage_malformed_iff rs nRaw tok').mpr h
  · intro j g hget hmem
    exact startIndex_gt_matches rs toks j g hget hmem
  · exact startIndex_eq_zero_of_no_match rs toks
  · exact startIndex_cases rs toks
  · intro hlen hs
    unfold Page.getReferrersPage
    rw [h1]
    have hne : toks.isEmpty = false := by
      cases toks with
      | nil => exact absurd rfl h2
      | cons a l => rfl
    have hsne : ¬ (Page.startIndex rs toks = rs.length) := by omega
    simp only [hne, Bool.false_eq_true, if_false, if_pos hlen, if_neg hsne]
    by_cases hc : (rs.length : Int) - (Page.startIndex rs toks : Int) ≤
        ((Page.normalizePageSize nRaw).toNat : Int)
    · refine ⟨none, ?_⟩
      simp only [if_pos hc, if_pos (le_of_lt hs)]
      have htake : (rs.drop (Page.startIndex rs toks)).take
          (Page.normalizePageSize nRaw).toNat
            = rs.drop (Page.startIndex rs toks) := by
        apply List.take_of_length_le
        rw [List.length_drop]
        omega
      rw [htake]
    · simp only [if_neg hc]
      exact ⟨_, rfl⟩

/-- Claim C8 witness: the amended theorem applied to a four-element
result, `n = 3`, and a well-formed token naming the second element; the
page starts right after it. -/
theorem c8_amended_witness :
    Page.tokenDigests Ex.c8HitTok = some [⟨"sha256", "pb"⟩]
      ∧ ∃ nt, Page.getReferrersPage Ex.c8Rs (some 3) Ex.c8HitTok =
          .page ((Ex.c8Rs.drop
              (Page.startIndex Ex.c8Rs [⟨"sha256", "pb"⟩])).take
            (Page.normalizePageSize (some 3)).toNat) nt :=
  ⟨by decide,
    (c8_amended_pagination Ex.c8Rs (some 3) Ex.c8HitTok [⟨"sha256", "pb"⟩]
      (by decide) (by decide)).2.2.2.2.2 (by decide) (by decide)⟩

/-- The blob-verification fold keeps every error already accumulated. -/
theorem artput_fold_keeps (blobs : List Dgst) :
    ∀ (bs : List Dgst) (es : List ArtPut.VerifErr) (e : ArtPut.VerifErr),
      e ∈ es →
      e ∈ bs.foldl (fun es b =>
        if b ∈ blobs then es else es ++ [.manifestBlobUnknown b]) es := by
  intro bs
  induction bs with
  | nil => intro es e he; exact he
  | cons b bs ih =>
    intro es e he
    rw [List.foldl_cons]
    by_cases hb : b ∈ blobs
    · rw [if_pos hb]; exact ih es e he
    · rw [if_neg hb]; exact ih _ e (List.mem_append_left _ he)

/-- The blob-verification fold records `manifest-blob-unknown` for every
referenced blob the repository blob service cannot stat. -/
theorem artput_fold_bad (blobs : List Dgst) :
    ∀ (bs : List Dgst) (es : List ArtPut.VerifErr) (b : Dgst), b ∈ bs →
      b ∉ blobs →
      ArtPut.VerifErr.manifestBlobUnknown b ∈ bs.foldl (fun es b =>
        if b ∈ blobs then es else es ++ [.manifestBlobUnknown b]) es := by
  intro bs
  induction bs with
  | nil => intro es b hb; exact absurd hb (List.not_mem_nil b)
  | cons b0 bs ih =>
    intro es b hb hnb
    rw [List.foldl_cons]
    rcases List.mem_cons.mp hb with h | h
    · subst h
      rw [if_neg hnb]
      exact artput_fold_keeps blobs bs _ _
        (List.mem_append_right _ (List.mem_singleton.mpr rfl))
    · by_cases hb0 : b0 ∈ blobs
      · rw [if_pos hb0]; exact ih es b h hnb
      · rw [if_neg hb0]; exact ih _ b h hnb

/-- Claim C3: an ORAS artifact PUT whose `blobs[]` contain a digest the
repository cannot stat, or whose subject does not resolve as a manifest
in the repository, fails with a verification aggregate that contains
`manifest-blob-unknown` for each such unresolved digest, and the
repository state — blobs, manifests and referrer links, hence in
particular the subject and its referrer links — is unchanged. -/
theorem c3_unresolved_put_fails_unchanged (st : ArtPut.RepoState)
    (m : ArtPut.OrasManifest)
    (h : (∃ b ∈ m.blobs, b ∉ st.blobs) ∨ m.subject ∉ st.manifests) :
    ∃ errs, ArtPut.Put st m false = (.error errs, st)
      ∧ (∀ b ∈ m.blobs, b ∉ st.blobs →
          ArtPut.VerifErr.manifestBlobUnknown b ∈ errs)
      ∧ (m.subject ∉ st.manifests →
          ArtPut.VerifErr.manifestBlobUnknown m.subject ∈ errs) := by
  refine ⟨ArtPut.verifyManifest st m false, ?_, ?_, ?_⟩
  · unfold ArtPut.Put
    have hne : (ArtPut.verifyManifest st m false).isEmpty = false := by
      rw [List.isEmpty_eq_false_iff_exists_mem]
      unfold ArtPut.verifyManifest
      simp only [Bool.false_eq_true, if_false]
      by_cases hsub : m.subject ∈ st.manifests
      · rw [if_pos hsub]
        rcases h with ⟨b, hb, hnb⟩ | hns
        · exact ⟨_, artput_fold_bad st.blobs m.blobs _ b hb hnb⟩
        · exact absurd hsub hns
      · rw [if_neg hsub]
        exact ⟨.manifestBlobUnknown m.subject,
          List.mem_append_right _ (List.mem_singleton.mpr rfl)⟩
    simp only [hne, Bool.false_eq_true, if_false]
  · intro b hb hnb
    unfold ArtPut.verifyManifest
    simp only [Bool.false_eq_true, if_false]
    by_cases hsub : m.subject ∈ st.manifests
    · rw [if_pos hsub]
      exact artput_fold_bad st.blobs m.blobs _ b hb hnb
    · rw [if_neg hsub]
      exact List.mem_append_left _ (artput_fold_bad st.blobs m.blobs _ b hb hnb)
  · intro hns
    unfold ArtPut.verifyManifest
    simp only [Bool.false_eq_true, if_false]
    rw [if_neg hns]
    exact List.mem_append_right _ (List.mem_singleton.mpr rfl)

/-- Claim C3 witness: the theorem applied to an empty repository and an
artifact with one dangling blob (`sha256:deadbeef`) and a dangling
subject. -/
theorem c3_witness :
    ∃ errs, ArtPut.Put ⟨[], [], []⟩ Ex.c3M false = (.error errs, ⟨[], [], []⟩)
      ∧ (∀ b ∈ Ex.c3M.blobs, b ∉ ([] : List Dgst) →
          ArtPut.VerifErr.manifestBlobUnknown b ∈ errs)
      ∧ (Ex.c3M.subject ∉ ([] : List Dgst) →
          ArtPut.VerifErr.manifestBlobUnknown Ex.c3M.subject ∈ errs) :=
  c3_unresolved_put_fails_unchanged ⟨[], [], []⟩ Ex.c3M
    (Or.inl (by decide))

/-- A successful association-list lookup returns a stored pair. -/
theorem lookupStore_mem :
    ∀ (s : MStore.BlobStore) (d : Dgst) (b : MStore.Bytes),
      MStore.lookupStore s d = some b → (d, b) ∈ s := by
  intro s
  induction s with
  | nil => intro d b h; exact absurd h (by simp [MStore.lookupStore])
  | cons p rest ih =>
    intro d b h
    unfold MStore.lookupStore at h
    by_cases hd : p.1 = d
    · rw [if_pos hd] at h
      simp only [Option.some.injEq] at h
      subst h
      subst hd
      exact List.mem_cons_self _ _
    · rw [if_neg hd] at h
      exact List.mem_cons_of_mem _ (ih d b h)

/-- `ofHandler` on a successful unmarshal. -/
theorem ofHandler_some (m : MStore.Man) :
    MStore.ofHandler (some m) = .ok m := rfl

/-- Every manifest `Get` returns was read, verbatim, from the blob
store: its payload is the looked-up content. -/
theorem msGet_ok_raw (s : MStore.BlobStore) (d : Dgst) (m : MStore.Man)
    (h : MStore.msGet s d = .ok m) :
    MStore.lookupStore s d = some m.raw := by
  unfold MStore.msGet at h
  split at h
  · exact absurd h (by simp)
  · rename_i b heq
    rw [heq]
    suffices hb : m.raw = b by rw [hb]
    unfold MStore.dispatch at h
    unfold MStore.schema1Unmarshal MStore.schema2Unmarshal
      MStore.ocischemaUnmarshal MStore.manifestListUnmarshal
      MStore.orasUnmarshal at h
    repeat' split at h
    all_goals first
      | (apply absurd h; simp [MStore.ofHandler]; done)
      | (simp only [ofHandler_some, Except.ok.injEq] at h; subst h; rfl)

/-- A successful lookup makes `Get` dispatch on the found content. -/
theorem msGet_some (s : MStore.BlobStore) (d : Dgst) (b : MStore.Bytes)
    (h : MStore.lookupStore s d = some b) :
    MStore.msGet s d = MStore.dispatch b := by
  unfold MStore.msGet
  rw [h]

/-- On a payload that is well formed for its manifest's variant, the GET
dispatch reproduces the manifest. -/
theorem dispatch_routes (m : MStore.Man) (hroute : MStore.routesTo m) :
    MStore.dispatch m.raw = .ok m := by
  have hociS2 : ociImageMT ≠ schema2MT := by decide
  have hlistS2 : manifestListMT ≠ schema2MT := by decide
  have hlistOci : manifestListMT ≠ ociImageMT := by decide
  have hidxS2 : ociIndexMT ≠ schema2MT := by decide
  have hidxOci : ociIndexMT ≠ ociImageMT := by decide
  have hempS2 : ("" : String) ≠ schema2MT := by decide
  have hempOci : ("" : String) ≠ ociImageMT := by decide
  have hempList : ("" : String) ≠ manifestListMT := by decide
  have hempIdx : ("" : String) ≠ ociIndexMT := by decide
  cases m with
  | mk mv raw =>
    cases mv <;> simp only [MStore.routesTo] at hroute
    case schema1 =>
      obtain ⟨h1, h2⟩ := hroute
      simp [MStore.dispatch, h1, h2, MStore.schema1Unmarshal,
        MStore.ofHandler]
    case schema2 =>
      obtain ⟨h1, h2, h3⟩ := hroute
      simp [MStore.dispatch, h1, h2, h3, MStore.schema2Unmarshal,
        MStore.ofHandler]
    case ociImage =>
      obtain ⟨h1, h2⟩ := hroute
      rcases h2 with ⟨hmt, hoci⟩ | ⟨hmt, hlm, hoci⟩
      · simp [MStore.dispatch, h1, hmt, hoci, hociS2,
          MStore.ocischemaUnmarshal, MStore.ofHandler]
      · simp [MStore.dispatch, h1, hmt, hlm, hoci, hempS2, hempOci,
          hempList, hempIdx, MStore.ocischemaUnmarshal, MStore.ofHandler]
    case ociIndex =>
      obtain ⟨h1, h2⟩ := hroute
      rcases h2 with ⟨hmt, hlm⟩ | ⟨hmt, hlm⟩
      · obtain ⟨lmv, hlmv⟩ := Option.isSome_iff_exists.mp hlm
        rcases hmt with hmt | hmt
        · simp [MStore.dispatch, h1, hmt, hlmv, hlistS2, hlistOci,
            MStore.manifestListUnmarshal, MStore.ofHandler]
        · simp [MStore.dispatch, h1, hmt, hlmv, hidxS2, hidxOci,
            MStore.manifestListUnmarshal, MStore.ofHandler]
      · simp [MStore.dispatch, h1, hmt, hlm, hempS2, hempOci, hempList,
          hempIdx]
    case orasArtifact =>
      obtain ⟨h1, h2, hmt, horas, hty⟩ := hroute
      rcases hver : raw.ver with _ | _ | _ | vv
      · simp [MStore.dispatch, hver, hmt, horas, hty,
          MStore.orasUnmarshal, MStore.ofHandler]
      · exact absurd hver h1
      · exact absurd hver h2
      · simp [MStore.dispatch, hver, hmt, horas, hty,
          MStore.orasUnmarshal, MStore.ofHandler]

/-- Claim C2: for every manifest variant, a successful `Put` of a
manifest with a well-formed payload stores the canonical bytes at their
content digest, and `Get` of that digest returns the manifest with the
canonical payload byte-for-byte intact; moreover digest stability is
preserved, so for every stored digest the digest of the payload `Get`
returns equals the digest asked for. -/
theorem c2_put_get_roundtrip (st : MStore.RegState) (m : MStore.Man)
    (skip : Bool) (d : Dgst) (st' : MStore.RegState)
    (hput : MStore.msPut st m skip = .ok (d, st'))
    (hroute : MStore.routesTo m) (hwf : MStore.wfStore st.store) :
    MStore.msGet st'.store d = .ok m
      ∧ d = MStore.digestFromBytes m.payload
      ∧ MStore.wfStore st'.store
      ∧ (∀ (d0 : Dgst) (m0 : MStore.Man),
          MStore.msGet st'.store d0 = .ok m0 →
          MStore.digestFromBytes m0.payload = d0) := by
  unfold MStore.msPut at hput
  by_cases hv : MStore.verifyOk st m skip = true
  case neg =>
    rw [if_neg hv] at hput
    exact absurd hput (by simp)
  case pos =>
    rw [if_pos hv] at hput
    simp only [Except.ok.injEq, Prod.mk.injEq] at hput
    obtain ⟨hd, hst⟩ := hput
    subst hd
    subst hst
    have hwf' : MStore.wfStore
        ((MStore.digestFromBytes m.payload, m.payload) :: st.store) := by
      intro p hp
      rcases List.mem_cons.mp hp with h | h
      · rw [h]
      · exact hwf p h
    refine ⟨?_, rfl, hwf', ?_⟩
    · have hlk : MStore.lookupStore
          ((MStore.digestFromBytes m.payload, m.payload) :: st.store)
          (MStore.digestFromBytes m.payload) = some m.raw := by
        simp [MStore.lookupStore, MStore.Man.payload]
      rw [msGet_some _ _ m.raw hlk]
      exact dispatch_routes m hroute
    · intro d0 m0 h0
      exact hwf' (d0, m0.raw) (lookupStore_mem _ d0 m0.raw
        (msGet_ok_raw _ d0 m0 h0))

/-- Claim C2 witness: the theorem applied to an ORAS artifact put into an
empty registry with dependency verification skipped; `Get` of the
returned digest reproduces it, payload intact. -/
theorem c2_witness :
    MStore.msPut ⟨[], [], []⟩ Ex.c2M true = .ok (Ex.c2D, Ex.c2St')
      ∧ MStore.msGet Ex.c2St'.store Ex.c2D = .ok Ex.c2M :=
  ⟨by decide,
    (c2_put_get_roundtrip ⟨[], [], []⟩ Ex.c2M true Ex.c2D Ex.c2St'
      (by decide) (by decide) (by decide)).1⟩

/-- Inserting into the sorted wrapper list permutes consing. -/
theorem insertDesc_perm (p : Int × RefSvc.ArtDesc) :
    ∀ l : List (Int × RefSvc.ArtDesc),
      List.Perm (RefSvc.insertDesc p l) (p :: l) := by
  intro l
  induction l with
  | nil => exact List.Perm.refl _
  | cons q rest ih =>
    unfold RefSvc.insertDesc
    by_cases hc : p.1 > q.1
    · rw [if_pos hc]
    · rw [if_neg hc]
      exact (List.Perm.cons q ih).trans (List.Perm.swap p q rest)

/-- `sortDescBy` permutes its input. -/
theorem sortDescBy_perm :
    ∀ l : List (Int × RefSvc.ArtDesc),
      List.Perm (RefSvc.sortDescBy l) l := by
  intro l
  induction l with
  | nil => exact List.Perm.refl _
  | cons p rest ih =>
    exact (insertDesc_perm p (RefSvc.sortDescBy rest)).trans
      (List.Perm.cons p ih)

/-- Insertion preserves the nonincreasing order of wrapped timestamps. -/
theorem insertDesc_sorted (p : Int × RefSvc.ArtDesc) :
    ∀ l : List (Int × RefSvc.ArtDesc),
      l.Pairwise (fun a b => b.1 ≤ a.1) →
      (RefSvc.insertDesc p l).Pairwise (fun a b => b.1 ≤ a.1) := by
  intro l
  induction l with
  | nil => intro _; exact List.pairwise_singleton _ p
  | cons q rest ih =>
    intro hs
    rw [List.pairwise_cons] at hs
    obtain ⟨hq, hrest⟩ := hs
    unfold RefSvc.insertDesc
    by_cases hc : p.1 > q.1
    · rw [if_pos hc]
      rw [List.pairwise_cons]
      refine ⟨?_, List.pairwise_cons.mpr ⟨hq, hrest⟩⟩
      intro a ha
      rcases List.mem_cons.mp ha with h | h
      · rw [h]; exact le_of_lt hc
      · exact le_trans (hq a h) (le_of_lt hc)
    · rw [if_neg hc]
      rw [List.pairwise_cons]
      refine ⟨?_, ih hrest⟩
      intro a ha
      have ha' := (insertDesc_perm p rest).mem_iff.mp ha
      rcases List.mem_cons.mp ha' with h | h
      · rw [h]; exact le_of_not_lt hc
      · exact hq a h

/-- `sortDescBy` sorts timestamps in nonincreasing order. -/
theorem sortDescBy_sorted :
    ∀ l : List (Int × RefSvc.ArtDesc),
      (RefSvc.sortDescBy l).Pairwise (fun a b => b.1 ≤ a.1) := by
  intro l
  induction l with
  | nil => exact List.Pairwise.nil
  | cons p rest ih => exact insertDesc_sorted p _ ih

/-- Characterisation of the first variant's ingest loop: on success the
accumulated buckets are the independently derived annotated pairs and
unannotated descriptors, appended in enumeration order. -/
theorem ingestV1_ok_char (t : String) :
    ∀ (rs : List RefSvc.RefRecord) (acc acc' : RefSvc.V1Acc),
      RefSvc.ingestV1 t acc rs = .ok acc' →
      acc' = ⟨acc.unsorted ++ RefSvc.unannotatedDescs t rs,
        acc.wrappers ++ RefSvc.annotatedPairs t rs⟩ := by
  intro rs
  induction rs with
  | nil =>
    intro acc acc' h
    unfold RefSvc.ingestV1 at h
    simp only [Except.ok.injEq] at h
    subst h
    simp [RefSvc.unannotatedDescs, RefSvc.annotatedPairs]
  | cons r rest ih =>
    intro acc acc' h
    unfold RefSvc.ingestV1 at h
    by_cases hinc : RefSvc.includeV1 t r = true
    · rw [if_pos hinc] at h
      cases hc : r.created with
      | none =>
        rw [hc] at h
        have := ih _ _ h
        rw [this]
        simp only [RefSvc.unannotatedDescs, RefSvc.annotatedPairs,
          List.filterMap_cons, hinc, hc]
        simp [RefSvc.unannotatedDescs, RefSvc.annotatedPairs]
      | some copt =>
        cases copt with
        | none =>
          rw [hc] at h
          exact absurd h (by simp)
        | some tm =>
          rw [hc] at h
          have := ih _ _ h
          rw [this]
          simp only [RefSvc.unannotatedDescs, RefSvc.annotatedPairs,
            List.filterMap_cons, hinc, hc]
          simp [RefSvc.unannotatedDescs, RefSvc.annotatedPairs]
    · rw [if_neg hinc] at h
      have := ih _ _ h
      rw [this]
      have hincF : RefSvc.includeV1 t r = false :=
        Bool.not_eq_true _ ▸ eq_false_of_ne_true hinc
      simp [RefSvc.unannotatedDescs, RefSvc.annotatedPairs,
        List.filterMap_cons, hincF]

/-- A successful first-variant listing is the sorted annotated
descriptors followed by the unannotated ones. -/
theorem Referrers_ok_shape (t : String) (rs : List RefSvc.RefRecord)
    (out : List RefSvc.ArtDesc) (h : RefSvc.Referrers t rs = .ok out) :
    out = (RefSvc.sortDescBy (RefSvc.annotatedPairs t rs)).map Prod.snd
      ++ RefSvc.unannotatedDescs t rs := by
  unfold RefSvc.Referrers at h
  cases hi : RefSvc.ingestV1 t ⟨[], []⟩ rs with
  | error e => rw [hi] at h; exact absurd h (by simp)
  | ok acc =>
    rw [hi] at h
    simp only [Except.ok.injEq] at h
    subst h
    rw [ingestV1_ok_char t rs ⟨[], []⟩ acc hi]
    simp

/-- Claim C6: in a successful referrers listing, the descriptors whose
manifests carry the created annotation come first, ordered by that
timestamp most recent first (strictly decreasing when the timestamps are
pairwise distinct), as a permutation of the annotated referrers; the
descriptors lacking the annotation follow them in enumeration order. -/
theorem c6_referrers_sorted_by_created (t : String)
    (rs : List RefSvc.RefRecord) (out : List RefSvc.ArtDesc)
    (hok : RefSvc.Referrers t rs = .ok out)
    (hdist : (RefSvc.annotatedPairs t rs).Pairwise (fun a b => a.1 ≠ b.1)) :
    out = (RefSvc.sortDescBy (RefSvc.annotatedPairs t rs)).map Prod.snd
        ++ RefSvc.unannotatedDescs t rs
      ∧ List.Perm (RefSvc.sortDescBy (RefSvc.annotatedPairs t rs))
          (RefSvc.annotatedPairs t rs)
      ∧ (RefSvc.sortDescBy (RefSvc.annotatedPairs t rs)).Pairwise
          (fun a b => b.1 < a.1) := by
  refine ⟨Referrers_ok_shape t rs out hok, sortDescBy_perm _, ?_⟩
  have hne : (RefSvc.sortDescBy (RefSvc.annotatedPairs t rs)).Pairwise
      (fun a b => a.1 ≠ b.1) :=
    ((sortDescBy_perm _).pairwise_iff (fun h => Ne.symm h)).mpr hdist
  exact ((sortDescBy_sorted _).and hne).imp
    (fun hab => lt_of_le_of_ne hab.1 (Ne.symm hab.2))

/-- Claim C6 witness: the spec's scenario 3 — January, March, February
(annotated) and one unannotated referrer enumerate in that order, and the
listing is March, February, January, then the unannotated one. -/
theorem c6_witness :
    RefSvc.Referrers "" Ex.c6Rs = .ok Ex.c6Out
      ∧ Ex.c6Out
        = (RefSvc.sortDescBy (RefSvc.annotatedPairs "" Ex.c6Rs)).map
            Prod.snd ++ RefSvc.unannotatedDescs "" Ex.c6Rs :=
  ⟨by decide,
    (c6_referrers_sorted_by_created "" Ex.c6Rs Ex.c6Out (by decide)
      (by decide)).1⟩

/-- A successful first-variant ingest saw no included referrer with an
unparsable created annotation. -/
theorem ingestV1_ok_noBad (t : String) :
    ∀ (rs : List RefSvc.RefRecord) (acc acc' : RefSvc.V1Acc),
      RefSvc.ingestV1 t acc rs = .ok acc' →
      ∀ r ∈ rs, RefSvc.includeV1 t r = true → r.created ≠ some none := by
  intro rs
  induction rs with
  | nil => intro acc acc' h r hr; exact absurd hr (List.not_mem_nil r)
  | cons r0 rest ih =>
    intro acc acc' h r hr hinc
    unfold RefSvc.ingestV1 at h
    by_cases hinc0 : RefSvc.includeV1 t r0 = true
    · rw [if_pos hinc0] at h
      cases hc : r0.created with
      | none =>
        rw [hc] at h
        rcases List.mem_cons.mp hr with he | he
        · subst he; rw [hc]; simp
        · exact ih _ _ h r he hinc
      | some copt =>
        cases copt with
        | none => rw [hc] at h; exact absurd h (by simp)
        | some tm =>
          rw [hc] at h
          rcases List.mem_cons.mp hr with he | he
          · subst he; rw [hc]; simp
          · exact ih _ _ h r he hinc
    · rw [if_neg hinc0] at h
      rcases List.mem_cons.mp hr with he | he
      · subst he; exact absurd hinc hinc0
      · exact ih _ _ h r he hinc

/-- Annotated-bucket step: an included referrer without the annotation
contributes nothing. -/
theorem annotatedPairs_cons_unann (t : String) (r : RefSvc.RefRecord)
    (rest : List RefSvc.RefRecord) (hinc : RefSvc.includeV1 t r = true)
    (hc : r.created = none) :
    RefSvc.annotatedPairs t (r :: rest) = RefSvc.annotatedPairs t rest := by
  simp [RefSvc.annotatedPairs, List.filterMap_cons, hinc, hc]

/-- Annotated-bucket step: an included referrer with a parsed annotation
contributes its wrapper. -/
theorem annotatedPairs_cons_ann (t : String) (r : RefSvc.RefRecord)
    (rest : List RefSvc.RefRecord) (tm : Int)
    (hinc : RefSvc.includeV1 t r = true) (hc : r.created = some (some tm)) :
    RefSvc.annotatedPairs t (r :: rest)
      = (tm, RefSvc.descOf r) :: RefSvc.annotatedPairs t rest := by
  simp [RefSvc.annotatedPairs, List.filterMap_cons, hinc, hc]

/-- Annotated-bucket step: an excluded referrer contributes nothing. -/
theorem annotatedPairs_cons_skip (t : String) (r : RefSvc.RefRecord)
    (rest : List RefSvc.RefRecord) (hinc : RefSvc.includeV1 t r = false) :
    RefSvc.annotatedPairs t (r :: rest) = RefSvc.annotatedPairs t rest := by
  simp [RefSvc.annotatedPairs, List.filterMap_cons, hinc]

/-- Unannotated-bucket step: an included referrer without the annotation
contributes its descriptor. -/
theorem unannotatedDescs_cons_unann (t : String) (r : RefSvc.RefRecord)
    (rest : List RefSvc.RefRecord) (hinc : RefSvc.includeV1 t r = true)
    (hc : r.created = none) :
    RefSvc.unannotatedDescs t (r :: rest)
      = RefSvc.descOf r :: RefSvc.unannotatedDescs t rest := by
  simp [RefSvc.unannotatedDescs, List.filterMap_cons, hinc, hc]

/-- Unannotated-bucket step: a referrer with an annotation contributes
nothing here. -/
theorem unannotatedDescs_cons_ann (t : String) (r : RefSvc.RefRecord)
    (rest : List RefSvc.RefRecord) (copt : Option Int)
    (hc : r.created = some copt) :
    RefSvc.unannotatedDescs t (r :: rest)
      = RefSvc.unannotatedDescs t rest := by
  simp [RefSvc.unannotatedDescs, List.filterMap_cons, hc]

/-- Unannotated-bucket step: an excluded referrer contributes nothing. -/
theorem unannotatedDescs_cons_skip (t : String) (r : RefSvc.RefRecord)
    (rest : List RefSvc.RefRecord) (hinc : RefSvc.includeV1 t r = false) :
    RefSvc.unannotatedDescs t (r :: rest)
      = RefSvc.unannotatedDescs t rest := by
  simp [RefSvc.unannotatedDescs, List.filterMap_cons, hinc]

/-- Included-digest step for an included referrer. -/
theorem includedDigests_cons_incl (t : String) (r : RefSvc.RefRecord)
    (rest : List RefSvc.RefRecord) (hinc : RefSvc.includeV1 t r = true) :
    RefSvc.includedDigests t (r :: rest)
      = r.dgst :: RefSvc.includedDigests t rest := by
  simp [RefSvc.includedDigests, List.filter_cons, hinc]

/-- Included-digest step for an excluded referrer. -/
theorem includedDigests_cons_skip (t : String) (r : RefSvc.RefRecord)
    (rest : List RefSvc.RefRecord) (hinc : RefSvc.includeV1 t r = false) :
    RefSvc.includedDigests t (r :: rest) = RefSvc.includedDigests t rest := by
  simp [RefSvc.includedDigests, List.filter_cons, hinc]

/-- The two buckets of the first variant partition the included digests
(when no included referrer has an unparsable annotation). -/
theorem v1_digests_partition (t : String) :
    ∀ rs : List RefSvc.RefRecord,
      (∀ r ∈ rs, RefSvc.includeV1 t r = true → r.created ≠ some none) →
      ∀ g : Dgst,
        (g ∈ (RefSvc.annotatedPairs t rs).map (fun p => p.2.dgst) ∨
          g ∈ (RefSvc.unannotatedDescs t rs).map RefSvc.ArtDesc.dgst) ↔
        g ∈ RefSvc.includedDigests t rs := by
  intro rs
  induction rs with
  | nil =>
    intro _ g
    simp [RefSvc.annotatedPairs, RefSvc.unannotatedDescs,
      RefSvc.includedDigests]
  | cons r rest ih =>
    intro hside g
    have hrest := fun r' hr' => hside r' (List.mem_cons_of_mem r hr')
    have hI := ih hrest g
    have hdg : (RefSvc.descOf r).dgst = r.dgst := rfl
    by_cases hinc : RefSvc.includeV1 t r = true
    · cases hc : r.created with
      | none =>
        rw [annotatedPairs_cons_unann t r rest hinc hc,
          unannotatedDescs_cons_unann t r rest hinc hc,
          includedDigests_cons_incl t r rest hinc]
        simp only [List.map_cons, List.mem_cons, hdg]
        tauto
      | some copt =>
        cases copt with
        | none => exact absurd hc (hside r (List.mem_cons_self r rest) hinc)
        | some tm =>
          rw [annotatedPairs_cons_ann t r rest tm hinc hc,
            unannotatedDescs_cons_ann t r rest _ hc,
            includedDigests_cons_incl t r rest hinc]
          simp only [List.map_cons, List.mem_cons, hdg]
          tauto
    · have hincF : RefSvc.includeV1 t r = false :=
        eq_false_of_ne_true hinc
      rw [annotatedPairs_cons_skip t r rest hincF,
        unannotatedDescs_cons_skip t r rest hincF,
        includedDigests_cons_skip t r rest hincF]
      exact hI

/-- V2 annotated-bucket step for an included annotated referrer. -/
theorem annotatedPairsV2_cons_ann (ty : String) (r : RefSvc.RefRecord)
    (rest : List RefSvc.RefRecord) (copt : Option Int)
    (hart : r.isArtifact = true) (hty : (r.artifactType == ty) = true)
    (hc : r.created = some copt) :
    RefSvc.annotatedPairsV2 ty (r :: rest)
      = (RefSvc.v2Key r, RefSvc.descOf r) :: RefSvc.annotatedPairsV2 ty rest := by
  have hty' : r.artifactType = ty := by simpa using hty
  simp [RefSvc.annotatedPairsV2, List.filterMap_cons, hart, hty', hc]

/-- V2 annotated-bucket step for an included unannotated referrer. -/
theorem annotatedPairsV2_cons_unann (ty : String) (r : RefSvc.RefRecord)
    (rest : List RefSvc.RefRecord)
    (hc : r.created = none) :
    RefSvc.annotatedPairsV2 ty (r :: rest)
      = RefSvc.annotatedPairsV2 ty rest := by
  by_cases hart : r.isArtifact = true
  · by_cases hty : r.artifactType = ty
    · simp [RefSvc.annotatedPairsV2, List.filterMap_cons, hart, hty, hc]
    · simp [RefSvc.annotatedPairsV2, List.filterMap_cons, hart, hty]
  · simp [RefSvc.annotatedPairsV2, List.filterMap_cons, hart]

/-- V2 annotated-bucket step for an excluded referrer. -/
theorem annotatedPairsV2_cons_skip (ty : String) (r : RefSvc.RefRecord)
    (rest : List RefSvc.RefRecord)
    (hskip : (r.isArtifact && r.artifactType == ty) = false) :
    RefSvc.annotatedPairsV2 ty (r :: rest)
      = RefSvc.annotatedPairsV2 ty rest := by
  simp only [RefSvc.annotatedPairsV2, List.filterMap_cons, hskip]
  simp

/-- V2 unannotated-bucket step for an included unannotated referrer. -/
theorem unannotatedDescsV2_cons_unann (ty : String) (r : RefSvc.RefRecord)
    (rest : List RefSvc.RefRecord)
    (hart : r.isArtifact = true) (hty : (r.artifactType == ty) = true)
    (hc : r.created = none) :
    RefSvc.unannotatedDescsV2 ty (r :: rest)
      = RefSvc.descOf r :: RefSvc.unannotatedDescsV2 ty rest := by
  have hty' : r.artifactType = ty := by simpa using hty
  simp [RefSvc.unannotatedDescsV2, List.filterMap_cons, hart, hty', hc]

/-- V2 unannotated-bucket step for an annotated referrer. -/
theorem unannotatedDescsV2_cons_ann (ty : String) (r : RefSvc.RefRecord)
    (rest : List RefSvc.RefRecord) (copt : Option Int)
    (hc : r.created = some copt) :
    RefSvc.unannotatedDescsV2 ty (r :: rest)
      = RefSvc.unannotatedDescsV2 ty rest := by
  simp [RefSvc.unannotatedDescsV2, List.filterMap_cons, hc]

/-- V2 unannotated-bucket step for an excluded referrer. -/
theorem unannotatedDescsV2_cons_skip (ty : String) (r : RefSvc.RefRecord)
    (rest : List RefSvc.RefRecord)
    (hskip : (r.isArtifact && r.artifactType == ty) = false) :
    RefSvc.unannotatedDescsV2 ty (r :: rest)
      = RefSvc.unannotatedDescsV2 ty rest := by
  have hskip' : ¬ (r.isArtifact = true ∧ r.artifactType = ty) := by
    simpa using hskip
  simp [RefSvc.unannotatedDescsV2, List.filterMap_cons, hskip']

/-- V2 included-digest step for an included referrer. -/
theorem includedDigestsV2_cons_incl (ty : String) (r : RefSvc.RefRecord)
    (rest : List RefSvc.RefRecord)
    (hincl : (r.isArtifact && r.artifactType == ty) = true) :
    RefSvc.includedDigestsV2 ty (r :: rest)
      = r.dgst :: RefSvc.includedDigestsV2 ty rest := by
  simp [RefSvc.includedDigestsV2, List.filter_cons, hincl]

/-- V2 included-digest step for an excluded referrer. -/
theorem includedDigestsV2_cons_skip (ty : String) (r : RefSvc.RefRecord)
    (rest : List RefSvc.RefRecord)
    (hskip : (r.isArtifact && r.artifactType == ty) = false) :
    RefSvc.includedDigestsV2 ty (r :: rest)
      = RefSvc.includedDigestsV2 ty rest := by
  simp [RefSvc.includedDigestsV2, List.filter_cons, hskip]

/-- Characterisation of the second variant's ingest fold. -/
theorem v2_fold_char (ty : String) :
    ∀ (rs : List RefSvc.RefRecord) (u : List RefSvc.ArtDesc)
      (w : List (Int × RefSvc.ArtDesc)),
      rs.foldl (RefSvc.v2Step ty) (u, w)
        = (u ++ RefSvc.unannotatedDescsV2 ty rs,
            w ++ RefSvc.annotatedPairsV2 ty rs) := by
  intro rs
  induction rs with
  | nil =>
    intro u w
    simp [RefSvc.unannotatedDescsV2, RefSvc.annotatedPairsV2]
  | cons r rest ih =>
    intro u w
    rw [List.foldl_cons]
    by_cases hart : r.isArtifact = true
    · by_cases hty : (r.artifactType == ty) = true
      · cases hc : r.created with
        | none =>
          have hstep : RefSvc.v2Step ty (u, w) r
              = (u ++ [RefSvc.descOf r], w) := by
            simp [RefSvc.v2Step, hart, hty, hc]
          rw [hstep, ih, annotatedPairsV2_cons_unann ty r rest hc,
            unannotatedDescsV2_cons_unann ty r rest hart hty hc]
          simp
        | some copt =>
          have hstep : RefSvc.v2Step ty (u, w) r
              = (u, w ++ [(RefSvc.v2Key r, RefSvc.descOf r)]) := by
            simp [RefSvc.v2Step, hart, hty, hc]
          rw [hstep, ih, annotatedPairsV2_cons_ann ty r rest copt hart hty hc,
            unannotatedDescsV2_cons_ann ty r rest copt hc]
          simp
      · have htyF : (r.artifactType == ty) = false := eq_false_of_ne_true hty
        have hskip : (r.isArtifact && r.artifactType == ty) = false := by
          simp [htyF]
        have hstep : RefSvc.v2Step ty (u, w) r = (u, w) := by
          simp [RefSvc.v2Step, hart, htyF]
        rw [hstep, ih, annotatedPairsV2_cons_skip ty r rest hskip,
          unannotatedDescsV2_cons_skip ty r rest hskip]
    · have hartF : r.isArtifact = false := eq_false_of_ne_true hart
      have hskip : (r.isArtifact && r.artifactType == ty) = false := by
        simp [hartF]
      have hstep : RefSvc.v2Step ty (u, w) r = (u, w) := by
        simp [RefSvc.v2Step, hartF]
      rw [hstep, ih, annotatedPairsV2_cons_skip ty r rest hskip,
        unannotatedDescsV2_cons_skip ty r rest hskip]

/-- The two buckets of the second variant partition its included
digests. -/
theorem v2_digests_partition (ty : String) :
    ∀ (rs : List RefSvc.RefRecord) (g : Dgst),
      (g ∈ (RefSvc.annotatedPairsV2 ty rs).map (fun p => p.2.dgst) ∨
        g ∈ (RefSvc.unannotatedDescsV2 ty rs).map RefSvc.ArtDesc.dgst) ↔
      g ∈ RefSvc.includedDigestsV2 ty rs := by
  intro rs
  induction rs with
  | nil =>
    intro g
    simp [RefSvc.annotatedPairsV2, RefSvc.unannotatedDescsV2,
      RefSvc.includedDigestsV2]
  | cons r rest ih =>
    intro g
    have hI := ih g
    have hdg : (RefSvc.descOf r).dgst = r.dgst := rfl
    by_cases hincl : (r.isArtifact && r.artifactType == ty) = true
    · obtain ⟨hart, hty⟩ := Bool.and_eq_true_iff.mp hincl
      cases hc : r.created with
      | none =>
        rw [annotatedPairsV2_cons_unann ty r rest hc,
          unannotatedDescsV2_cons_unann ty r rest hart hty hc,
          includedDigestsV2_cons_incl ty r rest hincl]
        simp only [List.map_cons, List.mem_cons, hdg]
        tauto
      | some copt =>
        rw [annotatedPairsV2_cons_ann ty r rest copt hart hty hc,
          unannotatedDescsV2_cons_ann ty r rest copt hc,
          includedDigestsV2_cons_incl ty r rest hincl]
        simp only [List.map_cons, List.mem_cons, hdg]
        tauto
    · have hskip : (r.isArtifact && r.artifactType == ty) = false :=
        eq_false_of_ne_true hincl
      rw [annotatedPairsV2_cons_skip ty r rest hskip,
        unannotatedDescsV2_cons_skip ty r rest hskip,
        includedDigestsV2_cons_skip ty r rest hskip]
      exact hI

/-- Claim C7, amended: a successful listing of the *first* `Referrers`
variant contains exactly the referrers whose manifest artifact type
equals the filter, with an empty filter including every referrer; the
*second* variant filters by plain string equality with no empty-filter
bypass, so it contains exactly the referrers whose artifact type equals
the filter string — with an empty filter, only referrers whose artifact
type is the empty string. -/
theorem c7_amended_filtering (t : String) (rs : List RefSvc.RefRecord)
    (out : List RefSvc.ArtDesc) (hok : RefSvc.Referrers t rs = .ok out) :
    (∀ g : Dgst, g ∈ out.map RefSvc.ArtDesc.dgst ↔
        g ∈ RefSvc.includedDigests t rs)
      ∧ (∀ (ty : String) (rs2 : List RefSvc.RefRecord) (g : Dgst),
          g ∈ (RefSvc.ReferrersV2 ty rs2).map RefSvc.ArtDesc.dgst ↔
            g ∈ RefSvc.includedDigestsV2 ty rs2) := by
  constructor
  · intro g
    have hnoBad : ∀ r ∈ rs, RefSvc.includeV1 t r = true →
        r.created ≠ some none := by
      have h' := hok
      unfold RefSvc.Referrers at h'
      cases hi : RefSvc.ingestV1 t ⟨[], []⟩ rs with
      | error e => rw [hi] at h'; exact absurd h' (by simp)
      | ok acc => exact ingestV1_ok_noBad t rs _ _ hi
    rw [Referrers_ok_shape t rs out hok, List.map_append, List.mem_append,
      List.map_map]
    have hperm : List.Perm
        ((RefSvc.sortDescBy (RefSvc.annotatedPairs t rs)).map
          (RefSvc.ArtDesc.dgst ∘ Prod.snd))
        ((RefSvc.annotatedPairs t rs).map
          (RefSvc.ArtDesc.dgst ∘ Prod.snd)) :=
      (sortDescBy_perm _).map _
    rw [hperm.mem_iff]
    exact v1_digests_partition t rs hnoBad g
  · intro ty rs2 g
    show g ∈ ((RefSvc.sortDescBy
        (rs2.foldl (RefSvc.v2Step ty) ([], [])).2).map Prod.snd
          ++ (rs2.foldl (RefSvc.v2Step ty) ([], [])).1).map
        RefSvc.ArtDesc.dgst ↔ g ∈ RefSvc.includedDigestsV2 ty rs2
    rw [v2_fold_char ty rs2 [] []]
    simp only [List.nil_append, List.map_append, List.mem_append,
      List.map_map]
    have hperm : List.Perm
        ((RefSvc.sortDescBy (RefSvc.annotatedPairsV2 ty rs2)).map
          (RefSvc.ArtDesc.dgst ∘ Prod.snd))
        ((RefSvc.annotatedPairsV2 ty rs2).map
          (RefSvc.ArtDesc.dgst ∘ Prod.snd)) :=
      (sortDescBy_perm _).map _
    rw [hperm.mem_iff]
    exact v2_digests_partition ty rs2 g

/-- Claim C7 witness: the amended theorem applied to the C6 record list
with filter `app/notary`; the March digest is listed, matching the
included-digest characterisation. -/
theorem c7_amended_witness :
    RefSvc.Referrers "app/notary" Ex.c6Rs = .ok Ex.c6Out
      ∧ ((⟨"sha256", "mar"⟩ : Dgst) ∈ Ex.c6Out.map RefSvc.ArtDesc.dgst ↔
          (⟨"sha256", "mar"⟩ : Dgst)
            ∈ RefSvc.includedDigests "app/notary" Ex.c6Rs) :=
  ⟨by decide,
    (c7_amended_filtering "app/notary" Ex.c6Rs Ex.c6Out (by decide)).1
      ⟨"sha256", "mar"⟩⟩

/-- The mark set contains what it is asked to mark. -/
theorem mem_markBlob_self (s : List Dgst) (d : Dgst) : d ∈ GC.markBlob s d := by
  unfold GC.markBlob
  by_cases h : d ∈ s
  · rw [if_pos h]; exact h
  · rw [if_neg h]; exact List.mem_append_right _ (List.mem_singleton.mpr rfl)

/-- Marking never removes marks. -/
theorem mem_markBlob_of_mem (s : List Dgst) (d x : Dgst) (h : x ∈ s) :
    x ∈ GC.markBlob s d := by
  unfold GC.markBlob
  by_cases hd : d ∈ s
  · rw [if_pos hd]; exact h
  · rw [if_neg hd]; exact List.mem_append_left _ h

/-- Marking a list never removes marks. -/
theorem mem_markAll_of_mem :
    ∀ (ds s : List Dgst) (x : Dgst), x ∈ s → x ∈ GC.markAll s ds := by
  intro ds
  induction ds with
  | nil => intro s x h; exact h
  | cons d ds ih =>
    intro s x h
    exact ih (GC.markBlob s d) x (mem_markBlob_of_mem s d x h)

/-- Marking a list marks all of it. -/
theorem mem_markAll_self :
    ∀ (ds s : List Dgst) (x : Dgst), x ∈ ds → x ∈ GC.markAll s ds := by
  intro ds
  induction ds with
  | nil => intro s x h; exact absurd h (List.not_mem_nil x)
  | cons d ds ih =>
    intro s x h
    rcases List.mem_cons.mp h with he | he
    · subst he
      exact mem_markAll_of_mem ds _ x (mem_markBlob_self s x)
    · exact ih _ x he

/-- The referrer-walk only grows the mark set. -/
theorem gc_walk_mono :
    ∀ (fuel : Nat) (st : GC.RegState) (repo : GC.Repo) (ing : GC.Ingestor)
      (ds : List Dgst) (acc acc' : GC.Acc),
      GC.walkLinks fuel st repo ing ds acc = .ok acc' →
      ∀ x ∈ acc.markSet, x ∈ acc'.markSet := by
  intro fuel
  induction fuel with
  | zero =>
    intro st repo ing ds acc acc' h
    exact absurd h (by simp [GC.walkLinks])
  | succ f ih =>
    intro st repo ing ds acc acc' h x hx
    cases ds with
    | nil =>
      unfold GC.walkLinks at h
      simp only [Except.ok.injEq] at h
      subst h
      exact hx
    | cons r rest =>
      cases ing with
      | mark =>
        unfold GC.walkLinks at h
        dsimp only at h
        by_cases hb : r ∈ st.blobs
        · rw [if_pos hb] at h
          split at h
          · exact absurd h (by simp)
          · rename_i acc2 heq
            cases hlm : GC.lookupMan repo r with
            | none => rw [hlm] at heq; exact absurd heq (by simp)
            | some man =>
              rw [hlm] at heq
              cases hll : GC.lookupLinks repo r with
              | none =>
                rw [hll] at heq
                simp only [Except.ok.injEq] at heq
                subst heq
                exact ih st repo .mark rest _ acc' h x
                  (mem_markAll_of_mem _ _ x (mem_markBlob_of_mem _ r x hx))
              | some children =>
                rw [hll] at heq
                exact ih st repo .mark rest _ acc' h x
                  (ih st repo .mark children _ acc2 heq x
                    (mem_markAll_of_mem _ _ x (mem_markBlob_of_mem _ r x hx)))
        · rw [if_neg hb] at h
          exact ih st repo .mark rest acc acc' h x hx
      | sweep =>
        unfold GC.walkLinks at h
        dsimp only at h
        by_cases hb : r ∈ st.blobs
        · rw [if_pos hb] at h
          split at h
          · exact absurd h (by simp)
          · rename_i acc2 heq
            cases hll : GC.lookupLinks repo r with
            | none =>
              rw [hll] at heq
              simp only [Except.ok.injEq] at heq
              subst heq
              exact ih st repo .sweep rest _ acc' h x hx
            | some children =>
              rw [hll] at heq
              exact ih st repo .sweep rest _ acc' h x
                (ih st repo .mark children _ acc2 heq x hx)
        · rw [if_neg hb] at h
          exact ih st repo .sweep rest acc acc' h x hx

/-- A successful mark-walk marks every enumerated referrer the global
blob statter resolves. -/
theorem gc_walk_marks :
    ∀ (fuel : Nat) (st : GC.RegState) (repo : GC.Repo) (ds : List Dgst)
      (acc acc' : GC.Acc),
      GC.walkLinks fuel st repo .mark ds acc = .ok acc' →
      ∀ r ∈ ds, r ∈ st.blobs → r ∈ acc'.markSet := by
  intro fuel
  induction fuel with
  | zero =>
    intro st repo ds acc acc' h
    exact absurd h (by simp [GC.walkLinks])
  | succ f ih =>
    intro st repo ds acc acc' h r hr hrb
    cases ds with
    | nil => exact absurd hr (List.not_mem_nil r)
    | cons r0 rest =>
      unfold GC.walkLinks at h
      dsimp only at h
      by_cases hb : r0 ∈ st.blobs
      · rw [if_pos hb] at h
        split at h
        · exact absurd h (by simp)
        · rename_i acc2 heq
          rcases List.mem_cons.mp hr with he | he
          · subst he
            -- r itself was ingested: it is in acc2's mark set, which the
            -- rest of the walk preserves
            have hr2 : r ∈ acc2.markSet := by
              cases hlm : GC.lookupMan repo r with
              | none => rw [hlm] at heq; exact absurd heq (by simp)
              | some man =>
                rw [hlm] at heq
                cases hll : GC.lookupLinks repo r with
                | none =>
                  rw [hll] at heq
                  simp only [Except.ok.injEq] at heq
                  subst heq
                  exact mem_markAll_of_mem _ _ r (mem_markBlob_self _ r)
                | some children =>
                  rw [hll] at heq
                  exact gc_walk_mono f st repo .mark children _ acc2 heq r
                    (mem_markAll_of_mem _ _ r (mem_markBlob_self _ r))
            exact gc_walk_mono f st repo .mark rest acc2 acc' h r hr2
          · exact ih st repo rest acc2 acc' h r he hrb
      · rw [if_neg hb] at h
        rcases List.mem_cons.mp hr with he | he
        · subst he; exact absurd hrb hb
        · exact ih st repo rest acc acc' h r he hrb

/-- One tag pair pointing at a digest makes `tagsPointing` nonempty. -/
theorem gc_tagsPointing_ne (repo : GC.Repo) (d : Dgst) (tg : String)
    (h : (tg, d) ∈ repo.tags) : GC.tagsPointing repo d ≠ [] := by
  have hm : tg ∈ GC.tagsPointing repo d := by
    unfold GC.tagsPointing
    exact List.mem_map.mpr ⟨(tg, d), List.mem_filter.mpr ⟨h, by simp⟩, rfl⟩
  exact List.ne_nil_of_mem hm

/-- A manifest whose media type is the ORAS artifact manifest type is a
no-op for the per-manifest marking loop. -/
theorem gc_step_artifact (fuel : Nat) (st : GC.RegState) (repo : GC.Repo)
    (opts : GC.GCOpts) (d : Dgst) (man : GC.GoManifest) (acc : GC.Acc)
    (hart : man.mediaType = orasArtifactMT) :
    GC.manifestStep fuel st repo opts d man acc = .ok acc := by
  unfold GC.manifestStep
  rw [if_pos hart]

/-- The per-manifest step never sheds marks. -/
theorem gc_step_mono (fuel : Nat) (st : GC.RegState) (repo : GC.Repo)
    (opts : GC.GCOpts) (d : Dgst) (man : GC.GoManifest) (acc acc' : GC.Acc)
    (h : GC.manifestStep fuel st repo opts d man acc = .ok acc') :
    ∀ x ∈ acc.markSet, x ∈ acc'.markSet := by
  intro x hx
  unfold GC.manifestStep at h
  by_cases hart : man.mediaType = orasArtifactMT
  · rw [if_pos hart] at h
    simp only [Except.ok.injEq] at h
    subst h
    exact hx
  · rw [if_neg hart] at h
    by_cases hun : opts.removeUntagged = true ∧ GC.tagsPointing repo d = []
    · rw [if_pos hun] at h
      dsimp only at h
      cases hll : GC.lookupLinks repo d with
      | none =>
        rw [hll] at h
        simp only [Except.ok.injEq] at h
        subst h
        exact hx
      | some children =>
        rw [hll] at h
        exact gc_walk_mono fuel st repo .sweep children _ acc' h x hx
    · rw [if_neg hun] at h
      dsimp only at h
      cases hll : GC.lookupLinks repo d with
      | none =>
        rw [hll] at h
        simp only [Except.ok.injEq] at h
        subst h
        exact mem_markAll_of_mem _ _ x (mem_markBlob_of_mem _ d x hx)
      | some children =>
        rw [hll] at h
        exact gc_walk_mono fuel st repo .mark children _ acc' h x
          (mem_markAll_of_mem _ _ x (mem_markBlob_of_mem _ d x hx))

/-- A tagged non-artifact manifest's step marks the manifest, all its
referenced blobs, and every resolvable digest in its referrer folder. -/
theorem gc_step_tagged (fuel : Nat) (st : GC.RegState) (repo : GC.Repo)
    (opts : GC.GCOpts) (d : Dgst) (man : GC.GoManifest) (acc acc' : GC.Acc)
    (h : GC.manifestStep fuel st repo opts d man acc = .ok acc')
    (hart : man.mediaType ≠ orasArtifactMT)
    (htag : GC.tagsPointing repo d ≠ []) :
    d ∈ acc'.markSet ∧ (∀ rd ∈ man.references, rd ∈ acc'.markSet) ∧
      (∀ children, GC.lookupLinks repo d = some children →
        ∀ a ∈ children, a ∈ st.blobs → a ∈ acc'.markSet) := by
  unfold GC.manifestStep at h
  rw [if_neg hart] at h
  have hun : ¬ (opts.removeUntagged = true ∧ GC.tagsPointing repo d = []) :=
    fun hc => htag hc.2
  rw [if_neg hun] at h
  dsimp only at h
  cases hll : GC.lookupLinks repo d with
  | none =>
    rw [hll] at h
    simp only [Except.ok.injEq] at h
    subst h
    refine ⟨mem_markAll_of_mem _ _ d (mem_markBlob_self _ d), ?_, ?_⟩
    · intro rd hrd
      exact mem_markAll_self _ _ rd hrd
    · intro children hch
      exact absurd hch (by simp)
  | some children0 =>
    rw [hll] at h
    refine ⟨gc_walk_mono fuel st repo .mark children0 _ acc' h d
        (mem_markAll_of_mem _ _ d (mem_markBlob_self _ d)), ?_, ?_⟩
    · intro rd hrd
      exact gc_walk_mono fuel st repo .mark children0 _ acc' h rd
        (mem_markAll_self _ _ rd hrd)
    · intro children hch a ha hab
      simp only [Option.some.injEq] at hch
      subst hch
      exact gc_walk_marks fuel st repo children0 _ acc' h a ha hab

/-- The per-repository mark fold never sheds marks. -/
theorem gc_markRepo_mono (fuel : Nat) (st : GC.RegState) (repo : GC.Repo)
    (opts : GC.GCOpts) :
    ∀ (ms : List (Dgst × GC.GoManifest)) (acc acc' : GC.Acc),
      GC.markRepo fuel st repo opts ms acc = .ok acc' →
      ∀ x ∈ acc.markSet, x ∈ acc'.markSet := by
  intro ms
  induction ms with
  | nil =>
    intro acc acc' h x hx
    simp only [GC.markRepo, Except.ok.injEq] at h
    subst h
    exact hx
  | cons p rest ih =>
    intro acc acc' h x hx
    obtain ⟨d, man⟩ := p
    unfold GC.markRepo at h
    cases hstep : GC.manifestStep fuel st repo opts d man acc with
    | error e =>
      rw [hstep] at h
      exact absurd h (by simp)
    | ok acc2 =>
      rw [hstep] at h
      exact ih acc2 acc' h x
        (gc_step_mono fuel st repo opts d man acc acc2 hstep x hx)

/-- Every manifest revision of the repository is processed by exactly one
step whose output marks are preserved to the end of the fold. -/
theorem gc_markRepo_processes (fuel : Nat) (st : GC.RegState) (repo : GC.Repo)
    (opts : GC.GCOpts) :
    ∀ (ms : List (Dgst × GC.GoManifest)) (acc acc' : GC.Acc),
      GC.markRepo fuel st repo opts ms acc = .ok acc' →
      ∀ d man, (d, man) ∈ ms →
        ∃ a1 a2 : GC.Acc,
          GC.manifestStep fuel st repo opts d man a1 = .ok a2 ∧
          ∀ x ∈ a2.markSet, x ∈ acc'.markSet := by
  intro ms
  induction ms with
  | nil =>
    intro acc acc' _ d man hmem
    exact absurd hmem (List.not_mem_nil (d, man))
  | cons p rest ih =>
    intro acc acc' h d man hmem
    obtain ⟨d0, m0⟩ := p
    unfold GC.markRepo at h
    cases hstep : GC.manifestStep fuel st repo opts d0 m0 acc with
    | error e =>
      rw [hstep] at h
      exact absurd h (by simp)
    | ok acc2 =>
      rw [hstep] at h
      rcases List.mem_cons.mp hmem with he | he
      · simp only [Prod.mk.injEq] at he
        obtain ⟨he1, he2⟩ := he
        subst he1
        subst he2
        exact ⟨acc, acc2, hstep,
          gc_markRepo_mono fuel st repo opts rest acc2 acc' h⟩
      · exact ih acc2 acc' h d man he

/-- The whole mark phase never sheds marks. -/
theorem gc_markPhase_mono (fuel : Nat) (st : GC.RegState) (opts : GC.GCOpts) :
    ∀ (rs : List GC.Repo) (acc acc' : GC.Acc),
      GC.markPhase fuel st opts rs acc = .ok acc' →
      ∀ x ∈ acc.markSet, x ∈ acc'.markSet := by
  intro rs
  induction rs with
  | nil =>
    intro acc acc' h x hx
    simp only [GC.markPhase, Except.ok.injEq] at h
    subst h
    exact hx
  | cons repo rest ih =>
    intro acc acc' h x hx
    unfold GC.markPhase at h
    cases hr : GC.markRepo fuel st repo opts repo.manifests acc with
    | error e =>
      rw [hr] at h
      exact absurd h (by simp)
    | ok acc2 =>
      rw [hr] at h
      exact ih acc2 acc' h x
        (gc_markRepo_mono fuel st repo opts repo.manifests acc acc2 hr x hx)

/-- Every manifest revision of every repository is processed by a step
whose output marks survive to the final accumulator of the mark phase. -/
theorem gc_markPhase_processes (fuel : Nat) (st : GC.RegState)
    (opts : GC.GCOpts) :
    ∀ (rs : List GC.Repo) (acc acc' : GC.Acc),
      GC.markPhase fuel st opts rs acc = .ok acc' →
      ∀ repo ∈ rs, ∀ d man, (d, man) ∈ repo.manifests →
        ∃ a1 a2 : GC.Acc,
          GC.manifestStep fuel st repo opts d man a1 = .ok a2 ∧
          ∀ x ∈ a2.markSet, x ∈ acc'.markSet := by
  intro rs
  induction rs with
  | nil =>
    intro acc acc' _ repo hmem
    exact absurd hmem (List.not_mem_nil repo)
  | cons repo0 rest ih =>
    intro acc acc' h repo hmem d man hdm
    unfold GC.markPhase at h
    cases hr : GC.markRepo fuel st repo0 opts repo0.manifests acc with
    | error e =>
      rw [hr] at h
      exact absurd h (by simp)
    | ok acc2 =>
      rw [hr] at h
      rcases List.mem_cons.mp hmem with he | he
      · subst he
        obtain ⟨a1, a2, hstep, hsub⟩ :=
          gc_markRepo_processes fuel st repo opts repo.manifests acc acc2 hr
            d man hdm
        exact ⟨a1, a2, hstep, fun x hx =>
          gc_markPhase_mono fuel st opts rest acc2 acc' h x (hsub x hx)⟩
      · exact ih acc2 acc' h repo he d man hdm

/-- Vacuuming manifest revisions leaves the global blob list untouched. -/
theorem gc_removeFold_blobs (l : List (String × Dgst × List String))
    (st : GC.RegState) :
    (l.foldl (fun s obj => GC.removeManifestState s obj.1 obj.2.1) st).blobs
      = st.blobs := by
  induction l generalizing st with
  | nil => rfl
  | cons p rest ih => exact ih (GC.removeManifestState st p.1 p.2.1)

/-- Vacuuming indexed artifact manifests leaves the global blob list
untouched. -/
theorem gc_removeArtFold_blobs (l : List (Dgst × String)) (st : GC.RegState) :
    (l.foldl (fun s obj => GC.removeArtifactManifestState s obj.2 obj.1)
        st).blobs = st.blobs := by
  induction l generalizing st with
  | nil => rfl
  | cons p rest ih => exact ih (GC.removeArtifactManifestState st p.2 p.1)

/-- C1 (amended): GC safety for a completed, non-dry run of
`MarkAndSweep`: (a) a blob is scheduled for deletion only if its digest
is absent from the final mark set; (b) every global blob in the final
mark set survives the run; (c) every tagged manifest whose media type is
not the ORAS artifact manifest type is in the final mark set, together
with all the blobs it references — tagged ORAS artifact manifests are
exempt, since the per-manifest loop skips them before the tag check and
the sweep can still remove them. -/
theorem c1_amended_gc_safety (fuel : Nat) (st : GC.RegState)
    (opts : GC.GCOpts) (res : GC.GCResult)
    (hrun : GC.MarkAndSweep fuel st opts = .ok res)
    (hdry : opts.dryRun = false) :
    (∀ d ∈ res.deleteSet, d ∉ res.acc.markSet) ∧
      (∀ d ∈ st.blobs, d ∈ res.acc.markSet → d ∈ res.state.blobs) ∧
      (∀ repo ∈ st.repos, ∀ d man, (d, man) ∈ repo.manifests →
        man.mediaType ≠ orasArtifactMT → (∃ tg, (tg, d) ∈ repo.tags) →
        d ∈ res.acc.markSet ∧ ∀ rd ∈ man.references, rd ∈ res.acc.markSet)
    := by
  unfold GC.MarkAndSweep at hrun
  cases hmp : GC.markPhase fuel st opts st.repos ⟨[], [], []⟩ with
  | error e =>
    rw [hmp] at hrun
    exact absurd hrun (by simp)
  | ok acc =>
    rw [hmp] at hrun
    simp only [hdry, Bool.false_eq_true, if_false, Except.ok.injEq] at hrun
    subst hrun
    refine ⟨?_, ?_, ?_⟩
    · intro d hd
      simp only [List.mem_filter, decide_eq_true_eq] at hd
      exact hd.2
    · intro d hd hm
      refine List.mem_filter.mpr ⟨?_, by simpa using hm⟩
      rw [gc_removeArtFold_blobs, gc_removeFold_blobs]
      exact hd
    · intro repo hrepo d man hdm hart htag
      obtain ⟨tg, htg⟩ := htag
      obtain ⟨a1, a2, hstep, hsub⟩ :=
        gc_markPhase_processes fuel st opts st.repos ⟨[], [], []⟩ acc hmp
          repo hrepo d man hdm
      obtain ⟨hd, hrefs, _⟩ :=
        gc_step_tagged fuel st repo opts d man a1 a2 hstep hart
          (gc_tagsPointing_ne repo d tg htg)
      exact ⟨hsub d hd, fun rd hrd => hsub rd (hrefs rd hrd)⟩

/-- Witness for C1: on the concrete registry with image `c1wM` tagged
`t` and referrer artifact `c1wA`, the run succeeds and the tagged image
and its (empty) reference list are marked. -/
theorem c1_amended_gc_safety_witness :
    Ex.c1wM ∈ Ex.c1wRes.acc.markSet ∧
      ∀ rd ∈ ([] : List Dgst), rd ∈ Ex.c1wRes.acc.markSet :=
  (c1_amended_gc_safety 10 Ex.c1wSt ⟨false, true⟩ Ex.c1wRes (by decide)
      rfl).2.2 Ex.c1wRepo (by decide) Ex.c1wM ⟨ociImageMT, []⟩ (by decide)
    (by decide) ⟨"t", by decide⟩

/-- C5 (amended): within the per-manifest marking loop, only the *ORAS*
artifact manifest media type is skipped (the OCI artifact manifest media
type is processed like any other manifest); a skipped manifest is neither
marked nor scheduled there, and an untagged ORAS artifact listed in the
referrer folder of a tagged non-artifact manifest is marked transitively
by the referrer walk and survives a completed non-dry run. -/
theorem c5_amended_artifact_skip (fuel : Nat) (st : GC.RegState)
    (opts : GC.GCOpts) (res : GC.GCResult)
    (hrun : GC.MarkAndSweep fuel st opts = .ok res)
    (hdry : opts.dryRun = false) :
    (∀ (f : Nat) (st2 : GC.RegState) (repo : GC.Repo) (d : Dgst)
        (man : GC.GoManifest) (acc : GC.Acc),
        man.mediaType = orasArtifactMT →
        GC.manifestStep f st2 repo opts d man acc = .ok acc) ∧
      (∀ repo ∈ st.repos, ∀ d man, (d, man) ∈ repo.manifests →
        man.mediaType ≠ orasArtifactMT → (∃ tg, (tg, d) ∈ repo.tags) →
        ∀ children, GC.lookupLinks repo d = some children →
        ∀ a ∈ children, a ∈ st.blobs →
        a ∈ res.acc.markSet ∧ a ∈ res.state.blobs) := by
  unfold GC.MarkAndSweep at hrun
  cases hmp : GC.markPhase fuel st opts st.repos ⟨[], [], []⟩ with
  | error e =>
    rw [hmp] at hrun
    exact absurd hrun (by simp)
  | ok acc =>
    rw [hmp] at hrun
    simp only [hdry, Bool.false_eq_true, if_false, Except.ok.injEq] at hrun
    subst hrun
    refine ⟨?_, ?_⟩
    · intro f st2 repo d man acc0 hart
      exact gc_step_artifact f st2 repo opts d man acc0 hart
    · intro repo hrepo d man hdm hart htag children hch a ha hab
      obtain ⟨tg, htg⟩ := htag
      obtain ⟨a1, a2, hstep, hsub⟩ :=
        gc_markPhase_processes fuel st opts st.repos ⟨[], [], []⟩ acc hmp
          repo hrepo d man hdm
      obtain ⟨_, _, hwalk⟩ :=
        gc_step_tagged fuel st repo opts d man a1 a2 hstep hart
          (gc_tagsPointing_ne repo d tg htg)
      have hmark : a ∈ acc.markSet := hsub a (hwalk children hch a ha hab)
      refine ⟨hmark, List.mem_filter.mpr ⟨?_, by simpa using hmark⟩⟩
      rw [gc_removeArtFold_blobs, gc_removeFold_blobs]
      exact hab

/-- Witness for C5: in the concrete witness registry the untagged ORAS
artifact `c1wA`, a referrer of the tagged image `c1wM`, ends up marked
and still present after the sweep. -/
theorem c5_amended_artifact_skip_witness :
    Ex.c1wA ∈ Ex.c1wRes.acc.markSet ∧ Ex.c1wA ∈ Ex.c1wRes.state.blobs :=
  (c5_amended_artifact_skip 10 Ex.c1wSt ⟨false, true⟩ Ex.c1wRes (by decide)
      rfl).2 Ex.c1wRepo (by decide) Ex.c1wM ⟨ociImageMT, []⟩ (by decide)
    (by decide) ⟨"t", by decide⟩ [Ex.c1wA] (by decide) Ex.c1wA (by decide)
    (by decide)
